import Mathlib

/-!
Shallow embedding of the feasibility-gate core of the
`autonomous-research-engineer` repository (Stage 3: manifest checker,
dependency graph, blast radius, test coverage, feasibility gate), together
with theorems settling the specification claims about it.

Numeric ratios and thresholds are modelled over `ℚ` (the Python code uses
floats whose literals here are exact).  Human-readable rationale strings are
kept as fixed literals: the Python code interpolates numbers into them, but
no claim concerns their text, only that they are produced.
-/

/-- Case-sensitive list-prefix test, mirroring the character-by-character
substring scan used to model Python's `in` operator on strings. -/
def prefixCheck : List Char → List Char → Bool
  | [], _ => true
  | _ :: _, [] => false
  | a :: as, b :: bs => a == b && prefixCheck as bs

/-- `infixCheck needle haystack` models Python's `needle in haystack`
(substring containment; the empty needle is contained in everything). -/
def infixCheck (needle : List Char) : List Char → Bool
  | [] => needle.isEmpty
  | c :: rest => prefixCheck needle (c :: rest) || infixCheck needle rest

/-- `containsSub haystack needle` models Python `needle in haystack`. -/
def containsSub (haystack needle : String) : Bool :=
  infixCheck needle.data haystack.data

/-- Python `str.lower()`, modelled as a per-character ASCII lowercase map
(the matcher and node heuristics only ever compare such lowered strings). -/
def lowerStr (s : String) : String := String.mk (s.data.map Char.toLower)

/-- Clamp a ratio into [0, 1]; models the pydantic `clamp_coverage`
field validator `max(0.0, min(v, 1.0))`. -/
def clampRatio (v : ℚ) : ℚ := max 0 (min v 1)

/-- A single function entry from a manifest YAML
(`manifest_checker.ManifestFunction`; metadata fields not read by the
verified components are omitted). -/
structure ManifestFunction where
  name : String
  module_path : String
  docstring : Option String
  source_file : String
deriving DecidableEq, Repr

/-- A single class entry from a manifest YAML
(`manifest_checker.ManifestClass`). -/
structure ManifestClass where
  name : String
  module_path : String
  methods : List ManifestFunction
  docstring : Option String
  source_file : String
deriving DecidableEq, Repr

/-- Full parsed manifest for a single repository
(`manifest_checker.RepositoryManifest`). -/
structure RepositoryManifest where
  repo_name : String
  version : String
  functions : List ManifestFunction
  classes : List ManifestClass
deriving DecidableEq, Repr

/-- A single matched operation (`manifest_checker.OperationMatch`). -/
structure OperationMatch where
  operation : String
  repo_name : String
  function_name : Option String
  class_name : Option String
  module_path : String
  match_type : String
deriving DecidableEq, Repr

/-- Result of checking operations against manifests
(`manifest_checker.ManifestCheckResult`). -/
structure ManifestCheckResult where
  matched_operations : List OperationMatch
  unmatched_operations : List String
  manifests_loaded : List String
  coverage_ratio : ℚ
deriving DecidableEq, Repr

/-- Tier-1 predicate: `op_lower in func.name.lower()`. -/
def fnNameHit (operation : String) (f : ManifestFunction) : Bool :=
  containsSub (lowerStr f.name) (lowerStr operation)

/-- Tier-2 predicate: `op_lower in cls.name.lower()`. -/
def clsNameHit (operation : String) (c : ManifestClass) : Bool :=
  containsSub (lowerStr c.name) (lowerStr operation)

/-- Tier-3 predicate: `func.docstring and op_lower in func.docstring.lower()`
(a `None` or empty docstring is falsy in Python and never matches). -/
def fnDocHit (operation : String) (f : ManifestFunction) : Bool :=
  match f.docstring with
  | none => false
  | some d => !(d == "") && containsSub (lowerStr d) (lowerStr operation)

/-- Tier-4 predicate: `cls.docstring and op_lower in cls.docstring.lower()`. -/
def clsDocHit (operation : String) (c : ManifestClass) : Bool :=
  match c.docstring with
  | none => false
  | some d => !(d == "") && containsSub (lowerStr d) (lowerStr operation)

/-- Tier-5 predicate: `op_lower in func.module_path.lower()`. -/
def fnPathHit (operation : String) (f : ManifestFunction) : Bool :=
  containsSub (lowerStr f.module_path) (lowerStr operation)

/-- `manifest_checker._match_operation_in_manifest`: try match tiers in
strict priority, first hit wins and scanning stops. -/
def matchOperationInManifest (operation : String) (m : RepositoryManifest) :
    Option OperationMatch :=
  match m.functions.find? (fnNameHit operation) with
  | some f => some ⟨operation, m.repo_name, some f.name, none, f.module_path, "exact_function"⟩
  | none =>
    match m.classes.find? (clsNameHit operation) with
    | some c => some ⟨operation, m.repo_name, none, some c.name, c.module_path, "exact_class"⟩
    | none =>
      match m.functions.find? (fnDocHit operation) with
      | some f => some ⟨operation, m.repo_name, some f.name, none, f.module_path, "docstring"⟩
      | none =>
        match m.classes.find? (clsDocHit operation) with
        | some c => some ⟨operation, m.repo_name, none, some c.name, c.module_path, "docstring"⟩
        | none =>
          match m.functions.find? (fnPathHit operation) with
          | some f => some ⟨operation, m.repo_name, some f.name, none, f.module_path, "module_path"⟩
          | none => none

/-- The inner manifest loop of `check_operations`: first manifest producing
a match wins (`for manifest in manifests: ... if match: break`). -/
def firstMatch (operation : String) (manifests : List RepositoryManifest) :
    Option OperationMatch :=
  manifests.findSome? (matchOperationInManifest operation)

/-- The operation loop of `check_operations`, accumulating matched and
unmatched lists in input order. -/
def checkOpsAux (manifests : List RepositoryManifest) :
    List String → List OperationMatch → List String →
    List OperationMatch × List String
  | [], matched, unmatched => (matched, unmatched)
  | op :: ops, matched, unmatched =>
    match firstMatch op manifests with
    | some mt => checkOpsAux manifests ops (matched ++ [mt]) unmatched
    | none => checkOpsAux manifests ops matched (unmatched ++ [op])

/-- `manifest_checker.check_operations`. -/
def check_operations (operations : List String)
    (manifests : List RepositoryManifest) : ManifestCheckResult :=
  let mu := checkOpsAux manifests operations [] []
  let matched := mu.1
  let unmatched := mu.2
  let total := matched.length + unmatched.length
  let coverage : ℚ := (matched.length : ℚ) / ((max total 1 : ℕ) : ℚ)
  { matched_operations := matched
    unmatched_operations := unmatched
    manifests_loaded := manifests.map (·.repo_name)
    coverage_ratio := clampRatio coverage }

/-- A node in the dependency graph (`dependency_graph.GraphNode`). -/
structure GraphNode where
  node_id : String
  node_type : String
  repo_name : String
  module_path : String
  source_file : Option String
deriving DecidableEq, Repr

/-- The dependency graph (`dependency_graph.DependencyGraph`): the NetworkX
DiGraph is modelled by its node set `graphNodes` and its attributed edge
list `edges` (source, target, edge_type; at most one entry per ordered
pair, as in NetworkX where `add_edge` on an existing pair overwrites the
attribute), and the `nodes` dict by an association list where the most
recent write shadows earlier ones. -/
structure DependencyGraph where
  graphNodes : List String
  edges : List (String × String × String)
  nodes : List (String × GraphNode)
deriving DecidableEq, Repr

/-- `dict.get` on `dg.nodes` (most recent write wins). -/
def DependencyGraph.lookupNode (g : DependencyGraph) (id : String) :
    Option GraphNode :=
  (g.nodes.find? (fun p => p.1 == id)).map (·.2)

/-- `id in dg.nodes`. -/
def DependencyGraph.hasNode (g : DependencyGraph) (id : String) : Bool :=
  g.nodes.any (fun p => p.1 == id)

/-- `dg.nodes[id] = n` (dict assignment; the new entry shadows any old one). -/
def DependencyGraph.setNode (g : DependencyGraph) (id : String)
    (n : GraphNode) : DependencyGraph :=
  { g with nodes := (id, n) :: g.nodes }

/-- NetworkX `add_node`: inserts the node id if not already present. -/
def DependencyGraph.addNode (g : DependencyGraph) (id : String) :
    DependencyGraph :=
  if g.graphNodes.contains id then g
  else { g with graphNodes := g.graphNodes ++ [id] }

/-- NetworkX `add_edge u v edge_type`: ensures both endpoint nodes exist,
then either overwrites the attribute of an existing (u, v) entry or
appends a new one. -/
def DependencyGraph.addEdge (g : DependencyGraph) (u v t : String) :
    DependencyGraph :=
  let g := (g.addNode u).addNode v
  if g.edges.any (fun e => e.1 == u && e.2.1 == v) then
    { g with
      edges := g.edges.map (fun e =>
        if e.1 == u && e.2.1 == v then (u, v, t) else e) }
  else { g with edges := g.edges ++ [(u, v, t)] }

/-- Python `source_file or None` (empty string is falsy). -/
def optFile (s : String) : Option String :=
  if s == "" then none else some s

/-- The repo-qualified node-id convention `"repo::rest"`. -/
def qualify (repo rest : String) : String := repo ++ "::" ++ rest

/-- Module node id `f"{repo}::{module_path}"`. -/
def moduleId (repo mp : String) : String := qualify repo mp

/-- Function node id `f"{repo}::{module_path}.{name}"`. -/
def functionId (repo : String) (f : ManifestFunction) : String :=
  qualify repo (f.module_path ++ "." ++ f.name)

/-- Class node id `f"{repo}::{module_path}.{name}"`. -/
def classId (repo : String) (c : ManifestClass) : String :=
  qualify repo (c.module_path ++ "." ++ c.name)

/-- Method node id `f"{repo}::{module_path}.{cls}.{method}"`. -/
def methodId (repo : String) (c : ManifestClass) (m : ManifestFunction) :
    String :=
  qualify repo (c.module_path ++ "." ++ c.name ++ "." ++ m.name)

/-- `mp.rsplit(".", 1)[0] if "." in mp else ""`: the parent package of a
dotted module path (empty when there is no dot). -/
def parentPackage (mp : String) : String :=
  if mp.data.contains '.' then
    String.mk (((mp.data.reverse.dropWhile (fun c => c != '.')).drop 1).reverse)
  else ""

/-- One iteration of the function loop of `build_from_manifests`: create the
function node, ensure its module node, record the module path in
`modules_seen`, add the module→function `contains` edge.  `modules_seen`
is a dict `module_path → node_id` whose values are determined by the keys
(`f"{repo}::{path}"`), so it is modelled by its key list in first-seen
order. -/
def processFunction (repo : String) (st : DependencyGraph × List String)
    (f : ManifestFunction) : DependencyGraph × List String :=
  let g := st.1
  let seen := st.2
  let fid := functionId repo f
  let mid := moduleId repo f.module_path
  let g := (g.setNode fid ⟨fid, "function", repo, f.module_path, optFile f.source_file⟩).addNode fid
  let g := if g.hasNode mid then g
           else (g.setNode mid ⟨mid, "module", repo, f.module_path, none⟩).addNode mid
  let seen := if seen.contains f.module_path then seen
              else seen ++ [f.module_path]
  (g.addEdge mid fid "contains", seen)

/-- The method loop of `build_from_manifests`: create the method node and
the class→method `method_of` edge. -/
def processMethod (repo : String) (c : ManifestClass) (g : DependencyGraph)
    (m : ManifestFunction) : DependencyGraph :=
  let mid := methodId repo c m
  let g := (g.setNode mid ⟨mid, "function", repo, c.module_path, optFile m.source_file⟩).addNode mid
  g.addEdge (classId repo c) mid "method_of"

/-- One iteration of the class loop of `build_from_manifests`. -/
def processClass (repo : String) (st : DependencyGraph × List String)
    (c : ManifestClass) : DependencyGraph × List String :=
  let g := st.1
  let seen := st.2
  let cid := classId repo c
  let mid := moduleId repo c.module_path
  let g := (g.setNode cid ⟨cid, "class", repo, c.module_path, optFile c.source_file⟩).addNode cid
  let g := if g.hasNode mid then g
           else (g.setNode mid ⟨mid, "module", repo, c.module_path, none⟩).addNode mid
  let seen := if seen.contains c.module_path then seen
              else seen ++ [c.module_path]
  let g := g.addEdge mid cid "contains"
  (c.methods.foldl (processMethod repo c) g, seen)

/-- One comparison of the sibling loop: when the parent packages of `mp1`
and `mp2` are equal and non-empty, add `imports` edges in both directions. -/
def siblingStep (repo mp1 : String) (g : DependencyGraph) (mp2 : String) :
    DependencyGraph :=
  if parentPackage mp1 != "" && parentPackage mp1 == parentPackage mp2 then
    ((g.addEdge (moduleId repo mp1) (moduleId repo mp2) "imports").addEdge
      (moduleId repo mp2) (moduleId repo mp1) "imports")
  else g

/-- Inner sibling loop: pair `mp1` with each later module path. -/
def addSiblingEdgesFor (repo : String) (mp1 : String) (g : DependencyGraph)
    (rest : List String) : DependencyGraph :=
  rest.foldl (siblingStep repo mp1) g

/-- Outer sibling loop over `mod_paths` (`for i, mp1 in enumerate(...)`
paired with `mod_paths[i+1:]`). -/
def addSiblingEdges (repo : String) (g : DependencyGraph) :
    List String → DependencyGraph
  | [] => g
  | mp1 :: rest => addSiblingEdges repo (addSiblingEdgesFor repo mp1 g rest) rest

/-- Per-manifest body of `build_from_manifests`. -/
def processManifest (g : DependencyGraph) (m : RepositoryManifest) :
    DependencyGraph :=
  let repo := m.repo_name
  let st := m.functions.foldl (processFunction repo) (g, [])
  let st := m.classes.foldl (processClass repo) st
  addSiblingEdges repo st.1 st.2

/-- `DependencyGraph.build_from_manifests`. -/
def build_from_manifests (manifests : List RepositoryManifest) :
    DependencyGraph :=
  manifests.foldl processManifest ⟨[], [], []⟩

/-- Successors of `u` in the edge list (NetworkX `G.successors`). -/
def edgeSuccs (edges : List (String × String × String)) (u : String) :
    List String :=
  (edges.filter (fun e => e.1 == u)).map (fun e => e.2.1)

/-- Append the elements of `xs` that are not already in `acc` (set union
with deterministic first-seen order). -/
def unionAdd (acc xs : List String) : List String :=
  xs.foldl (fun acc x => if acc.contains x then acc else acc ++ [x]) acc

/-- Grow a visited list by one step along the edges. -/
def reachStep (edges : List (String × String × String))
    (visited : List String) : List String :=
  visited.foldl (fun acc u => unionAdd acc (edgeSuccs edges u)) visited

/-- Iterate `reachStep` a fixed number of times (iterating once per edge
reaches a fixed point, giving directed reachability). -/
def reachIter (edges : List (String × String × String)) :
    Nat → List String → List String
  | 0, vis => vis
  | n + 1, vis => reachIter edges n (reachStep edges vis)

/-- NetworkX `descendants`: nodes reachable from `u`, excluding `u`. -/
def descendantsOf (edges : List (String × String × String)) (u : String) :
    List String :=
  (reachIter edges edges.length [u]).filter (fun v => v != u)

/-- `DependencyGraph.downstream`: reachable set, empty when the node is
absent from the graph. -/
def DependencyGraph.downstream (g : DependencyGraph) (u : String) :
    List String :=
  if g.graphNodes.contains u then descendantsOf g.edges u else []

/-- `DependencyGraph.upstream`: reachability along reversed edges, empty
when the node is absent. -/
def DependencyGraph.upstream (g : DependencyGraph) (u : String) :
    List String :=
  if g.graphNodes.contains u then
    descendantsOf (g.edges.map (fun e => (e.2.1, e.1, e.2.2))) u
  else []

/-- Risk level based on blast radius size (`blast_radius.RiskLevel`). -/
inductive RiskLevel where
  | low
  | medium
  | high
  | critical
deriving DecidableEq, Repr

/-- Result of blast radius analysis (`blast_radius.BlastRadiusReport`). -/
structure BlastRadiusReport where
  target_nodes : List String
  affected_functions : List String
  affected_tests : List String
  affected_contracts : List String
  risk_level : RiskLevel
deriving DecidableEq, Repr

/-- `blast_radius._classify_risk`. -/
def classify_risk (total_affected : Nat) : RiskLevel :=
  if total_affected ≤ 2 then RiskLevel.low
  else if total_affected ≤ 10 then RiskLevel.medium
  else if total_affected ≤ 30 then RiskLevel.high
  else RiskLevel.critical

/-- `_is_test_node` (identical in `blast_radius.py` and `test_coverage.py`):
a node is a test if its `module_path` (when the node record exists) or its
node id contains the substring "test", case-insensitively. -/
def is_test_node (node_id : String) (g : DependencyGraph) : Bool :=
  match g.lookupNode node_id with
  | some node =>
    if containsSub (lowerStr node.module_path) "test" then true
    else containsSub (lowerStr node_id) "test"
  | none => containsSub (lowerStr node_id) "test"

/-- `blast_radius._is_contract_node`: same heuristic with "contract". -/
def is_contract_node (node_id : String) (g : DependencyGraph) : Bool :=
  match g.lookupNode node_id with
  | some node =>
    if containsSub (lowerStr node.module_path) "contract" then true
    else containsSub (lowerStr node_id) "contract"
  | none => containsSub (lowerStr node_id) "contract"

/-- Insert a string into an ascending-sorted list. -/
def insertSorted (x : String) : List String → List String
  | [] => [x]
  | y :: ys => if x ≤ y then x :: y :: ys else y :: insertSorted x ys

/-- Python `sorted` on a collection of strings (ascending insertion sort). -/
def sortStrings (l : List String) : List String := l.foldr insertSorted []

/-- One iteration of the target loop of `compute_blast_radius`: keep the
target when it is present in the graph and union in its downstream set. -/
def collectStep (g : DependencyGraph) (acc : List String × List String)
    (t : String) : List String × List String :=
  if g.graphNodes.contains t then (acc.1 ++ [t], unionAdd acc.2 (g.downstream t))
  else acc

/-- The target loop of `compute_blast_radius`: collect targets present in
the graph (in input order) and union their downstream sets. -/
def collectAffected (g : DependencyGraph) (target_nodes : List String) :
    List String × List String :=
  target_nodes.foldl (collectStep g) ([], [])

/-- One iteration of the partition loop of `compute_blast_radius`: tests
first, then contracts, then everything else. -/
def partitionStep (g : DependencyGraph)
    (acc : List String × List String × List String) (node_id : String) :
    List String × List String × List String :=
  if is_test_node node_id g then (acc.1, acc.2.1 ++ [node_id], acc.2.2)
  else if is_contract_node node_id g then (acc.1, acc.2.1, acc.2.2 ++ [node_id])
  else (acc.1 ++ [node_id], acc.2.1, acc.2.2)

/-- The partition loop of `compute_blast_radius`. -/
def partitionAffected (g : DependencyGraph) (sortedAffected : List String) :
    List String × List String × List String :=
  sortedAffected.foldl (partitionStep g) ([], [], [])

/-- `blast_radius.compute_blast_radius`. -/
def compute_blast_radius (target_nodes : List String)
    (g : DependencyGraph) : BlastRadiusReport :=
  let va := collectAffected g target_nodes
  let parts := partitionAffected g (sortStrings va.2)
  let total := parts.1.length + parts.2.1.length + parts.2.2.length
  { target_nodes := va.1
    affected_functions := parts.1
    affected_tests := parts.2.1
    affected_contracts := parts.2.2
    risk_level := classify_risk total }

/-- Result of test coverage assessment (`test_coverage.CoverageAssessment`). -/
structure CoverageAssessment where
  covered_functions : List String
  uncovered_functions : List String
  coverage_ratio : ℚ
  additional_tests_needed : Nat
deriving DecidableEq, Repr

/-- Whether some node in `upstream(f) ∪ downstream(f)` is a test node. -/
def hasTestNeighbor (g : DependencyGraph) (func_id : String) : Bool :=
  (unionAdd (g.upstream func_id) (g.downstream func_id)).any
    (fun n => is_test_node n g)

/-- One iteration of the function loop of `assess_test_coverage`. -/
def coverStep (g : DependencyGraph) (acc : List String × List String)
    (f : String) : List String × List String :=
  if hasTestNeighbor g f then (acc.1 ++ [f], acc.2)
  else (acc.1, acc.2 ++ [f])

/-- `test_coverage.assess_test_coverage`. -/
def assess_test_coverage (affected_functions : List String)
    (g : DependencyGraph) : CoverageAssessment :=
  if affected_functions.isEmpty then
    { covered_functions := []
      uncovered_functions := []
      coverage_ratio := 1
      additional_tests_needed := 0 }
  else
    let cu := affected_functions.foldl (coverStep g) ([], [])
    let total := cu.1.length + cu.2.length
    { covered_functions := cu.1
      uncovered_functions := cu.2
      coverage_ratio := clampRatio ((cu.1.length : ℚ) / ((max total 1 : ℕ) : ℚ))
      additional_tests_needed := cu.2.length }

/-- Outcome of the feasibility gate (`gate.FeasibilityStatus`). -/
inductive FeasibilityStatus where
  | FEASIBLE
  | FEASIBLE_WITH_ADAPTATION
  | ESCALATE
  | NOT_FEASIBLE
deriving DecidableEq, Repr

/-- The escalation trigger enum from the external `agent_factors` layer,
restricted to the variants the gate uses. -/
inductive EscalationTrigger where
  | confidence_below_threshold
  | novel_primitive
deriving DecidableEq, Repr

/-- The four innovation types (`classifier.types.InnovationType`). -/
inductive InnovationType where
  | parameter_tuning
  | modular_swap
  | pipeline_restructuring
  | architectural_innovation
deriving DecidableEq, Repr

/-- Innovation-type classification result (`classifier.types.ClassificationResult`),
restricted to the fields the gate reads. -/
structure ClassificationResult where
  innovation_type : InnovationType
  confidence : ℚ
deriving DecidableEq, Repr

/-- The common 4-tuple returned by the per-type gate helpers:
(status, rationale, escalation trigger, adaptation notes). -/
abbrev GateOutcome :=
  FeasibilityStatus × String × Option EscalationTrigger × List String

/-- `gate._gate_parameter_tuning`: manifest check only. -/
def gate_parameter_tuning (manifest_check : ManifestCheckResult)
    (classification : ClassificationResult) : GateOutcome :=
  if classification.confidence < 0.6 then
    (FeasibilityStatus.ESCALATE,
     "Classification confidence below threshold",
     some EscalationTrigger.confidence_below_threshold, [])
  else if manifest_check.coverage_ratio = 0 then
    (FeasibilityStatus.NOT_FEASIBLE,
     "No operations matched in manifests", none, [])
  else if manifest_check.coverage_ratio ≥ 0.5 then
    (FeasibilityStatus.FEASIBLE,
     "Manifest coverage sufficient for parameter tuning", none, [])
  else
    (FeasibilityStatus.FEASIBLE_WITH_ADAPTATION,
     "Manifest coverage partial; adaptation may be needed", none,
     ["Only part of operations found in manifests"])

/-- `gate._gate_modular_swap`: manifest + blast radius. -/
def gate_modular_swap (manifest_check : ManifestCheckResult)
    (blast_radius : BlastRadiusReport)
    (classification : ClassificationResult) : GateOutcome :=
  if classification.confidence < 0.6 ∨ blast_radius.risk_level = RiskLevel.critical then
    (FeasibilityStatus.ESCALATE, "Modular swap escalated",
     some (if classification.confidence < 0.6 then
        EscalationTrigger.confidence_below_threshold
      else EscalationTrigger.novel_primitive), [])
  else if manifest_check.coverage_ratio = 0 then
    (FeasibilityStatus.NOT_FEASIBLE,
     "No operations matched in manifests for modular swap", none, [])
  else if manifest_check.coverage_ratio ≥ 0.5 ∧
      (blast_radius.risk_level = RiskLevel.low ∨
        blast_radius.risk_level = RiskLevel.medium) then
    (FeasibilityStatus.FEASIBLE, "Modular swap feasible", none, [])
  else
    (FeasibilityStatus.FEASIBLE_WITH_ADAPTATION,
     "Modular swap feasible with adaptation", none,
     (if manifest_check.coverage_ratio < 0.5 then
        ["Manifest coverage below 50 percent"] else []) ++
     (if ¬ (blast_radius.risk_level = RiskLevel.low ∨
          blast_radius.risk_level = RiskLevel.medium) then
        ["Blast radius risk is high or critical"] else []))

/-- `gate._gate_pipeline_restructuring`: full analysis. -/
def gate_pipeline_restructuring (manifest_check : ManifestCheckResult)
    (blast_radius : BlastRadiusReport) (test_coverage : CoverageAssessment)
    (classification : ClassificationResult) : GateOutcome :=
  if classification.confidence < 0.6 ∨ blast_radius.risk_level = RiskLevel.critical then
    (FeasibilityStatus.ESCALATE, "Pipeline restructuring escalated",
     some (if classification.confidence < 0.6 then
        EscalationTrigger.confidence_below_threshold
      else EscalationTrigger.novel_primitive), [])
  else if manifest_check.coverage_ratio = 0 then
    (FeasibilityStatus.NOT_FEASIBLE,
     "No operations matched for pipeline restructuring", none, [])
  else if manifest_check.coverage_ratio ≥ 0.5 ∧
      (blast_radius.risk_level = RiskLevel.low ∨
        blast_radius.risk_level = RiskLevel.medium) ∧
      test_coverage.coverage_ratio ≥ 0.5 then
    (FeasibilityStatus.FEASIBLE, "Pipeline restructuring feasible", none, [])
  else
    (FeasibilityStatus.FEASIBLE_WITH_ADAPTATION,
     "Pipeline restructuring feasible with adaptation", none,
     (if manifest_check.coverage_ratio < 0.5 then
        ["Manifest coverage below 50 percent"] else []) ++
     (if ¬ (blast_radius.risk_level = RiskLevel.low ∨
          blast_radius.risk_level = RiskLevel.medium) then
        ["Blast radius risk is high or critical"] else []) ++
     (if test_coverage.coverage_ratio < 0.5 then
        ["Test coverage below 50 percent"] else []))

/-- The unmatched ratio computed inside `_gate_architectural_innovation`:
`len(unmatched) / max(len(matched) + len(unmatched), 1)`. -/
def unmatchedRatio (manifest_check : ManifestCheckResult) : ℚ :=
  (manifest_check.unmatched_operations.length : ℚ) /
    ((max (manifest_check.matched_operations.length +
      manifest_check.unmatched_operations.length) 1 : ℕ) : ℚ)

/-- `gate._gate_architectural_innovation`: strictest requirements.  Note
that the NOT_FEASIBLE check precedes the confidence check in this branch. -/
def gate_architectural_innovation (manifest_check : ManifestCheckResult)
    (blast_radius : BlastRadiusReport) (test_coverage : CoverageAssessment)
    (classification : ClassificationResult) : GateOutcome :=
  if manifest_check.coverage_ratio = 0 ∨ unmatchedRatio manifest_check > 0.8 then
    (FeasibilityStatus.NOT_FEASIBLE,
     "Architectural innovation not feasible", none, [])
  else if unmatchedRatio manifest_check > 0.5 ∨ classification.confidence < 0.6 then
    (FeasibilityStatus.ESCALATE, "Architectural innovation escalated",
     some (if unmatchedRatio manifest_check > 0.5 then
        EscalationTrigger.novel_primitive
      else EscalationTrigger.confidence_below_threshold), [])
  else if manifest_check.coverage_ratio ≥ 0.5 ∧
      (blast_radius.risk_level = RiskLevel.low ∨
        blast_radius.risk_level = RiskLevel.medium) ∧
      test_coverage.coverage_ratio ≥ 0.7 then
    (FeasibilityStatus.FEASIBLE, "Architectural innovation feasible", none, [])
  else
    (FeasibilityStatus.FEASIBLE_WITH_ADAPTATION,
     "Architectural innovation feasible with adaptation", none,
     (if manifest_check.coverage_ratio < 0.5 then
        ["Manifest coverage below 50 percent"] else []) ++
     (if ¬ (blast_radius.risk_level = RiskLevel.low ∨
          blast_radius.risk_level = RiskLevel.medium) then
        ["Blast radius risk is high or critical"] else []) ++
     (if test_coverage.coverage_ratio < 0.7 then
        ["Test coverage below 70 percent"] else []))

-- ---------------------------------------------------------------------------
-- Helper lemmas
-- ---------------------------------------------------------------------------

theorem checkOpsAux_acc (manifests : List RepositoryManifest)
    (ops : List String) (macc : List OperationMatch) (uacc : List String) :
    checkOpsAux manifests ops macc uacc =
      (macc ++ (checkOpsAux manifests ops [] []).1,
       uacc ++ (checkOpsAux manifests ops [] []).2) := by
  induction ops generalizing macc uacc with
  | nil => simp [checkOpsAux]
  | cons op ops ih =>
    cases h : firstMatch op manifests with
    | some mt =>
      simp only [checkOpsAux, h]
      rw [ih (macc ++ [mt]) uacc, ih ([] ++ [mt]) []]
      simp
    | none =>
      simp only [checkOpsAux, h]
      rw [ih macc (uacc ++ [op]), ih [] ([] ++ [op])]
      simp

theorem checkOpsAux_length (manifests : List RepositoryManifest)
    (ops : List String) :
    (checkOpsAux manifests ops [] []).1.length +
      (checkOpsAux manifests ops [] []).2.length = ops.length := by
  induction ops with
  | nil => simp [checkOpsAux]
  | cons op ops ih =>
    cases h : firstMatch op manifests with
    | some mt =>
      simp only [checkOpsAux, h]
      rw [checkOpsAux_acc manifests ops ([] ++ [mt]) []]
      simp only [List.length_append, List.nil_append, List.length_cons,
        List.length_nil]
      omega
    | none =>
      simp only [checkOpsAux, h]
      rw [checkOpsAux_acc manifests ops [] ([] ++ [op])]
      simp only [List.length_append, List.nil_append, List.length_cons,
        List.length_nil]
      omega

theorem matchOperationInManifest_operation {op : String}
    {m : RepositoryManifest} {mt : OperationMatch}
    (h : matchOperationInManifest op m = some mt) : mt.operation = op := by
  unfold matchOperationInManifest at h
  repeat' split at h
  all_goals first
    | (cases h; rfl)
    | exact absurd h (by simp)

theorem firstMatch_operation {op : String}
    {manifests : List RepositoryManifest} {mt : OperationMatch}
    (h : firstMatch op manifests = some mt) : mt.operation = op := by
  unfold firstMatch at h
  induction manifests with
  | nil => simp at h
  | cons m ms ih =>
    rw [List.findSome?_cons] at h
    cases hm : matchOperationInManifest op m with
    | some mt2 =>
      rw [hm] at h
      cases h
      exact matchOperationInManifest_operation hm
    | none =>
      rw [hm] at h
      exact ih h

theorem checkOpsAux_count (manifests : List RepositoryManifest)
    (ops : List String) (op0 : String) :
    ((checkOpsAux manifests ops [] []).1.map (·.operation)).count op0 +
      (checkOpsAux manifests ops [] []).2.count op0 = ops.count op0 := by
  induction ops with
  | nil => simp [checkOpsAux]
  | cons op ops ih =>
    cases h : firstMatch op manifests with
    | some mt =>
      simp only [checkOpsAux, h]
      rw [checkOpsAux_acc manifests ops ([] ++ [mt]) []]
      have hop : mt.operation = op := firstMatch_operation h
      simp only [List.nil_append, List.map_append, List.count_append,
        List.map_cons, List.map_nil, List.count_cons, List.count_nil,
        List.count_singleton, hop]
      split <;> omega
    | none =>
      simp only [checkOpsAux, h]
      rw [checkOpsAux_acc manifests ops [] ([] ++ [op])]
      simp only [List.nil_append, List.count_append, List.count_cons,
        List.count_nil, List.count_singleton]
      split <;> omega

theorem natRatio_bounds (a b : Nat) :
    0 ≤ (a : ℚ) / ((max (a + b) 1 : ℕ) : ℚ) ∧
      (a : ℚ) / ((max (a + b) 1 : ℕ) : ℚ) ≤ 1 := by
  have hpos : (0 : ℚ) < ((max (a + b) 1 : ℕ) : ℚ) := by
    exact_mod_cast (by omega : 0 < max (a + b) 1)
  constructor
  · positivity
  · rw [div_le_one hpos]
    exact_mod_cast (by omega : a ≤ max (a + b) 1)

theorem clampRatio_of_bounded {q : ℚ} (h0 : 0 ≤ q) (h1 : q ≤ 1) :
    clampRatio q = q := by
  unfold clampRatio
  rw [min_eq_left h1, max_eq_right h0]

-- ---------------------------------------------------------------------------
-- C4
-- ---------------------------------------------------------------------------

/-- C4: `compute_blast_radius` assigns the risk level by exact fixed
thresholds on `total_affected`, the sum of the affected function, test and
contract counts: ≤ 2 is low, 3–10 medium, 11–30 high, above 30 critical;
the boundary values 0, 2, 3, 10, 11, 30, 31 map to low, low, medium,
medium, high, high, critical. -/
theorem c4_risk_boundaries :
    (∀ n : Nat,
      (classify_risk n = RiskLevel.low ↔ n ≤ 2) ∧
      (classify_risk n = RiskLevel.medium ↔ 3 ≤ n ∧ n ≤ 10) ∧
      (classify_risk n = RiskLevel.high ↔ 11 ≤ n ∧ n ≤ 30) ∧
      (classify_risk n = RiskLevel.critical ↔ 31 ≤ n)) ∧
    (∀ (targets : List String) (g : DependencyGraph),
      (compute_blast_radius targets g).risk_level =
        classify_risk ((compute_blast_radius targets g).affected_functions.length +
          (compute_blast_radius targets g).affected_tests.length +
          (compute_blast_radius targets g).affected_contracts.length)) ∧
    (classify_risk 0 = RiskLevel.low ∧ classify_risk 2 = RiskLevel.low ∧
     classify_risk 3 = RiskLevel.medium ∧ classify_risk 10 = RiskLevel.medium ∧
     classify_risk 11 = RiskLevel.high ∧ classify_risk 30 = RiskLevel.high ∧
     classify_risk 31 = RiskLevel.critical) := by
  refine ⟨?_, ?_, ?_⟩
  · intro n
    unfold classify_risk
    by_cases h1 : n ≤ 2 <;> by_cases h2 : n ≤ 10 <;> by_cases h3 : n ≤ 30 <;>
      simp [h1, h2, h3] <;> omega
  · intro targets g
    rfl
  · refine ⟨rfl, rfl, rfl, rfl, rfl, rfl, rfl⟩

-- ---------------------------------------------------------------------------
-- C6
-- ---------------------------------------------------------------------------

/-- C6: `check_operations` returns
`coverage_ratio = |matched| / max(|matched| + |unmatched|, 1)`; every input
operation is recorded in exactly one of the matched and unmatched lists
(counted with multiplicity); hence the ratio always lies in [0, 1], and an
empty operations list yields ratio exactly 0. -/
theorem c6_coverage_ratio :
    ∀ (operations : List String) (manifests : List RepositoryManifest),
      ((check_operations operations manifests).coverage_ratio =
        ((check_operations operations manifests).matched_operations.length : ℚ) /
          ((max ((check_operations operations manifests).matched_operations.length +
            (check_operations operations manifests).unmatched_operations.length) 1 : ℕ) : ℚ)) ∧
      (∀ op : String,
        (((check_operations operations manifests).matched_operations.map
            (·.operation)).count op +
          (check_operations operations manifests).unmatched_operations.count op =
          operations.count op)) ∧
      (0 ≤ (check_operations operations manifests).coverage_ratio ∧
        (check_operations operations manifests).coverage_ratio ≤ 1) ∧
      (check_operations [] manifests).coverage_ratio = 0 := by
  intro operations manifests
  have hb := natRatio_bounds (checkOpsAux manifests operations [] []).1.length
    (checkOpsAux manifests operations [] []).2.length
  have hclamp := clampRatio_of_bounded hb.1 hb.2
  refine ⟨?_, ?_, ?_, ?_⟩
  · simp only [check_operations]
    exact hclamp
  · intro op
    simpa only [check_operations] using checkOpsAux_count manifests operations op
  · constructor
    · simp only [check_operations]
      rw [hclamp]
      exact hb.1
    · simp only [check_operations]
      rw [hclamp]
      exact hb.2
  · simp [check_operations, checkOpsAux, clampRatio]

-- ---------------------------------------------------------------------------
-- Concrete fixtures used by counterexamples and witnesses
-- ---------------------------------------------------------------------------

def mcZero : ManifestCheckResult := ⟨[], [], [], 0⟩

def mcFull : ManifestCheckResult :=
  ⟨[⟨"opA", "repo", some "f", none, "m", "exact_function"⟩], [], ["repo"], 1⟩

def mcMostlyUnmatched : ManifestCheckResult :=
  ⟨[⟨"opA", "repo", some "f", none, "m", "exact_function"⟩],
   ["opB", "opC"], ["repo"], 1/3⟩

def brLow : BlastRadiusReport := ⟨[], [], [], [], RiskLevel.low⟩

def brCritical : BlastRadiusReport := ⟨[], [], [], [], RiskLevel.critical⟩

def tcFull : CoverageAssessment := ⟨[], [], 1, 0⟩

def clsLowConf : ClassificationResult := ⟨InnovationType.parameter_tuning, 0.5⟩

def clsHighConf : ClassificationResult := ⟨InnovationType.modular_swap, 0.85⟩

-- ---------------------------------------------------------------------------
-- C1
-- ---------------------------------------------------------------------------

/-- C1 (counterexample): with confidence 0.5 < 0.6 and manifest coverage 0,
the architectural_innovation branch returns NOT_FEASIBLE, not ESCALATE, so
the confidence rule is not checked before all other business logic and a
low-confidence result can be NOT_FEASIBLE. -/
theorem c1_counterexample :
    clsLowConf.confidence < 0.6 ∧
    (gate_architectural_innovation mcZero brLow tcFull clsLowConf).1 =
      FeasibilityStatus.NOT_FEASIBLE ∧
    (gate_architectural_innovation mcZero brLow tcFull clsLowConf).1 ≠
      FeasibilityStatus.ESCALATE := by
  have h1 : mcZero.coverage_ratio = 0 ∨ unmatchedRatio mcZero > 0.8 :=
    Or.inl (by norm_num [mcZero])
  refine ⟨by norm_num [clsLowConf], ?_, ?_⟩ <;>
    simp [gate_architectural_innovation, h1]

/-- C1 (amended): with confidence < 0.6, parameter_tuning, modular_swap and
pipeline_restructuring all return ESCALATE with the
confidence_below_threshold trigger as their first check; the
architectural_innovation branch never returns FEASIBLE, but its
NOT_FEASIBLE check (coverage 0 or unmatched_ratio > 0.8) runs first, and
when it does not fire the branch escalates, with the confidence trigger
only when unmatched_ratio ≤ 0.5. -/
theorem c1_confidence_gate_amended (mc : ManifestCheckResult)
    (br : BlastRadiusReport) (tc : CoverageAssessment)
    (cls : ClassificationResult) (h : cls.confidence < 0.6) :
    ((gate_parameter_tuning mc cls).1 = FeasibilityStatus.ESCALATE ∧
      (gate_parameter_tuning mc cls).2.2.1 =
        some EscalationTrigger.confidence_below_threshold) ∧
    ((gate_modular_swap mc br cls).1 = FeasibilityStatus.ESCALATE ∧
      (gate_modular_swap mc br cls).2.2.1 =
        some EscalationTrigger.confidence_below_threshold) ∧
    ((gate_pipeline_restructuring mc br tc cls).1 = FeasibilityStatus.ESCALATE ∧
      (gate_pipeline_restructuring mc br tc cls).2.2.1 =
        some EscalationTrigger.confidence_below_threshold) ∧
    ((gate_architectural_innovation mc br tc cls).1 ≠ FeasibilityStatus.FEASIBLE ∧
      (¬ (mc.coverage_ratio = 0 ∨ unmatchedRatio mc > 0.8) →
        (gate_architectural_innovation mc br tc cls).1 =
          FeasibilityStatus.ESCALATE ∧
        (¬ unmatchedRatio mc > 0.5 →
          (gate_architectural_innovation mc br tc cls).2.2.1 =
            some EscalationTrigger.confidence_below_threshold))) := by
  refine ⟨⟨?_, ?_⟩, ⟨?_, ?_⟩, ⟨?_, ?_⟩, ?_, ?_⟩
  · simp [gate_parameter_tuning, h]
  · simp [gate_parameter_tuning, h]
  · simp [gate_modular_swap, h]
  · simp [gate_modular_swap, h]
  · simp [gate_pipeline_restructuring, h]
  · simp [gate_pipeline_restructuring, h]
  · by_cases h1 : mc.coverage_ratio = 0 ∨ unmatchedRatio mc > 0.8
    · simp [gate_architectural_innovation, h1]
    · have h2 : unmatchedRatio mc > 0.5 ∨ cls.confidence < 0.6 := Or.inr h
      simp [gate_architectural_innovation, h1, h2]
  · intro h1
    have h2 : unmatchedRatio mc > 0.5 ∨ cls.confidence < 0.6 := Or.inr h
    constructor
    · simp [gate_architectural_innovation, h1, h2]
    · intro h3
      simp [gate_architectural_innovation, h1, h2, h3, h]

/-- C1 (witness): the amended theorem applied at a concrete low-confidence
input. -/
theorem c1_confidence_gate_amended_witness :
    clsLowConf.confidence < 0.6 ∧
    (gate_parameter_tuning mcFull clsLowConf).1 = FeasibilityStatus.ESCALATE :=
  ⟨by norm_num [clsLowConf],
   (c1_confidence_gate_amended mcFull brLow tcFull clsLowConf
     (by norm_num [clsLowConf])).1.1⟩

-- ---------------------------------------------------------------------------
-- C2
-- ---------------------------------------------------------------------------

/-- C2 (counterexample): for modular_swap, when confidence 0.5 < 0.6 and
blast-radius risk is critical together, the returned trigger is
confidence_below_threshold, not novel_primitive. -/
theorem c2_counterexample :
    clsLowConf.confidence < 0.6 ∧
    brCritical.risk_level = RiskLevel.critical ∧
    (gate_modular_swap mcFull brCritical clsLowConf).2.2.1 ≠
      some EscalationTrigger.novel_primitive := by
  have h : clsLowConf.confidence < 0.6 := by norm_num [clsLowConf]
  refine ⟨h, rfl, ?_⟩
  simp [gate_modular_swap, h]

/-- C2 (amended): when low confidence and the risk-based escalation
condition hold together, modular_swap and pipeline_restructuring use the
confidence_below_threshold trigger (their trigger ternary tests confidence
first); only architectural_innovation uses the risk-based novel_primitive
trigger (when its unmatched_ratio > 0.5 condition holds and the
NOT_FEASIBLE check did not fire). -/
theorem c2_trigger_precedence_amended (mc : ManifestCheckResult)
    (br : BlastRadiusReport) (tc : CoverageAssessment)
    (cls : ClassificationResult) (hconf : cls.confidence < 0.6) :
    (br.risk_level = RiskLevel.critical →
      (gate_modular_swap mc br cls).2.2.1 =
        some EscalationTrigger.confidence_below_threshold ∧
      (gate_pipeline_restructuring mc br tc cls).2.2.1 =
        some EscalationTrigger.confidence_below_threshold) ∧
    (unmatchedRatio mc > 0.5 →
      ¬ (mc.coverage_ratio = 0 ∨ unmatchedRatio mc > 0.8) →
      (gate_architectural_innovation mc br tc cls).2.2.1 =
        some EscalationTrigger.novel_primitive) := by
  constructor
  · intro hrisk
    constructor
    · simp [gate_modular_swap, hconf]
    · simp [gate_pipeline_restructuring, hconf]
  · intro hratio h1
    have h2 : unmatchedRatio mc > 0.5 ∨ cls.confidence < 0.6 := Or.inl hratio
    simp [gate_architectural_innovation, h1, h2, hratio]

theorem unmatchedRatio_mcMostly : unmatchedRatio mcMostlyUnmatched = 2/3 := by
  norm_num [unmatchedRatio, mcMostlyUnmatched]

/-- C2 (witness): the amended theorem applied at a concrete input where low
confidence and critical risk hold together, and at one where low
confidence and unmatched_ratio > 0.5 hold together. -/
theorem c2_trigger_precedence_amended_witness :
    clsLowConf.confidence < 0.6 ∧
    brCritical.risk_level = RiskLevel.critical ∧
    (gate_modular_swap mcFull brCritical clsLowConf).2.2.1 =
      some EscalationTrigger.confidence_below_threshold ∧
    (gate_architectural_innovation mcMostlyUnmatched brLow tcFull clsLowConf).2.2.1 =
      some EscalationTrigger.novel_primitive :=
  ⟨by norm_num [clsLowConf], rfl,
   ((c2_trigger_precedence_amended mcFull brCritical tcFull clsLowConf
      (by norm_num [clsLowConf])).1 rfl).1,
   (c2_trigger_precedence_amended mcMostlyUnmatched brLow tcFull clsLowConf
      (by norm_num [clsLowConf])).2
      (by rw [unmatchedRatio_mcMostly]; norm_num)
      (by rw [not_or, unmatchedRatio_mcMostly]
          constructor <;> norm_num [mcMostlyUnmatched])⟩

-- ---------------------------------------------------------------------------
-- C3
-- ---------------------------------------------------------------------------

theorem checkOpsAux_no_manifests (ops : List String)
    (macc : List OperationMatch) (uacc : List String) :
    checkOpsAux [] ops macc uacc = (macc, uacc ++ ops) := by
  induction ops generalizing macc uacc with
  | nil => simp [checkOpsAux]
  | cons op ops ih =>
    have h : firstMatch op [] = none := rfl
    simp [checkOpsAux, h, ih]

/-- C3 (counterexample): with coverage 0 and confidence 0.5 < 0.6, the
parameter_tuning branch returns ESCALATE, not NOT_FEASIBLE, so coverage 0
does not force NOT_FEASIBLE for every input. -/
theorem c3_counterexample :
    mcZero.coverage_ratio = 0 ∧
    (gate_parameter_tuning mcZero clsLowConf).1 = FeasibilityStatus.ESCALATE ∧
    (gate_parameter_tuning mcZero clsLowConf).1 ≠
      FeasibilityStatus.NOT_FEASIBLE := by
  have h : clsLowConf.confidence < 0.6 := by norm_num [clsLowConf]
  refine ⟨rfl, ?_, ?_⟩ <;> simp [gate_parameter_tuning, h]

/-- C3 (amended): manifest coverage 0 forces NOT_FEASIBLE once the checks
that precede the coverage check do not fire: for parameter_tuning when
confidence ≥ 0.6, for modular_swap and pipeline_restructuring when
additionally the risk is not critical, and for architectural_innovation
unconditionally (its NOT_FEASIBLE check, whose unmatched_ratio > 0.8
disjunct subsumes rather than contradicts the coverage rule, runs first);
zero loaded manifests always produce coverage_ratio 0. -/
theorem c3_no_coverage_amended (mc : ManifestCheckResult)
    (br : BlastRadiusReport) (tc : CoverageAssessment)
    (cls : ClassificationResult) (hcov : mc.coverage_ratio = 0) :
    (¬ cls.confidence < 0.6 →
      (gate_parameter_tuning mc cls).1 = FeasibilityStatus.NOT_FEASIBLE) ∧
    (¬ cls.confidence < 0.6 → br.risk_level ≠ RiskLevel.critical →
      (gate_modular_swap mc br cls).1 = FeasibilityStatus.NOT_FEASIBLE) ∧
    (¬ cls.confidence < 0.6 → br.risk_level ≠ RiskLevel.critical →
      (gate_pipeline_restructuring mc br tc cls).1 =
        FeasibilityStatus.NOT_FEASIBLE) ∧
    ((gate_architectural_innovation mc br tc cls).1 =
      FeasibilityStatus.NOT_FEASIBLE) ∧
    (∀ ops : List String, (check_operations ops []).coverage_ratio = 0) := by
  refine ⟨?_, ?_, ?_, ?_, ?_⟩
  · intro hc
    simp [gate_parameter_tuning, hc, hcov]
  · intro hc hr
    simp [gate_modular_swap, hc, hr, hcov]
  · intro hc hr
    simp [gate_pipeline_restructuring, hc, hr, hcov]
  · have h1 : mc.coverage_ratio = 0 ∨ unmatchedRatio mc > 0.8 := Or.inl hcov
    simp [gate_architectural_innovation, h1]
  · intro ops
    simp [check_operations, checkOpsAux_no_manifests, clampRatio]

/-- C3 (witness): the amended theorem applied at a concrete zero-coverage,
high-confidence input. -/
theorem c3_no_coverage_amended_witness :
    mcZero.coverage_ratio = 0 ∧
    (gate_parameter_tuning mcZero clsHighConf).1 =
      FeasibilityStatus.NOT_FEASIBLE :=
  ⟨rfl, (c3_no_coverage_amended mcZero brLow tcFull clsHighConf rfl).1
    (by norm_num [clsHighConf])⟩

-- ---------------------------------------------------------------------------
-- C5 / C10 helpers
-- ---------------------------------------------------------------------------

/-- All five match tiers miss for this operation in this manifest: no
function-name, class-name, function-docstring, class-docstring or
function-module-path hit.  Class module paths and class methods do not
appear here because the matcher never examines them. -/
abbrev noTierHit (op : String) (m : RepositoryManifest) : Prop :=
  (∀ f ∈ m.functions, fnNameHit op f = false) ∧
  (∀ c ∈ m.classes, clsNameHit op c = false) ∧
  (∀ f ∈ m.functions, fnDocHit op f = false) ∧
  (∀ c ∈ m.classes, clsDocHit op c = false) ∧
  (∀ f ∈ m.functions, fnPathHit op f = false)

theorem matchOperationInManifest_eq_none {op : String}
    {m : RepositoryManifest} (h : noTierHit op m) :
    matchOperationInManifest op m = none := by
  obtain ⟨h1, h2, h3, h4, h5⟩ := h
  have e1 : m.functions.find? (fnNameHit op) = none :=
    List.find?_eq_none.mpr (by intro x hx; simp [h1 x hx])
  have e2 : m.classes.find? (clsNameHit op) = none :=
    List.find?_eq_none.mpr (by intro x hx; simp [h2 x hx])
  have e3 : m.functions.find? (fnDocHit op) = none :=
    List.find?_eq_none.mpr (by intro x hx; simp [h3 x hx])
  have e4 : m.classes.find? (clsDocHit op) = none :=
    List.find?_eq_none.mpr (by intro x hx; simp [h4 x hx])
  have e5 : m.functions.find? (fnPathHit op) = none :=
    List.find?_eq_none.mpr (by intro x hx; simp [h5 x hx])
  simp [matchOperationInManifest, e1, e2, e3, e4, e5]

theorem firstMatch_eq_none {op : String}
    {manifests : List RepositoryManifest}
    (h : ∀ m ∈ manifests, noTierHit op m) :
    firstMatch op manifests = none := by
  unfold firstMatch
  induction manifests with
  | nil => rfl
  | cons m ms ih =>
    rw [List.findSome?_cons,
      matchOperationInManifest_eq_none (h m (List.mem_cons_self m ms))]
    exact ih (fun x hx => h x (List.mem_cons_of_mem m hx))

theorem mem_unmatched_of_firstMatch_none
    (manifests : List RepositoryManifest) (ops : List String) (op : String)
    (hnone : firstMatch op manifests = none) (hmem : op ∈ ops) :
    op ∈ (checkOpsAux manifests ops [] []).2 := by
  induction ops with
  | nil => cases hmem
  | cons op0 ops ih =>
    cases h : firstMatch op0 manifests with
    | some mt =>
      simp only [checkOpsAux, h]
      rw [checkOpsAux_acc manifests ops ([] ++ [mt]) []]
      rcases List.mem_cons.mp hmem with rfl | hmem2
      · simp [h] at hnone
      · simpa using ih hmem2
    | none =>
      simp only [checkOpsAux, h]
      rw [checkOpsAux_acc manifests ops [] ([] ++ [op0])]
      rcases List.mem_cons.mp hmem with rfl | hmem2
      · simp
      · simp [ih hmem2]

-- ---------------------------------------------------------------------------
-- C5
-- ---------------------------------------------------------------------------

/-- C5: matching inside a manifest proceeds in strict tier priority with
the first hit winning: function name, then class name, then function
docstring, then class docstring, then function module path; when all five
tiers miss the operation yields no match (and, across all manifests, is
reported unmatched).  Class module paths appear in no tier, so an
operation whose text occurs only in a class's module path satisfies
`noTierHit` and is unmatched. -/
theorem c5_match_tier_priority (op : String) (m : RepositoryManifest) :
    (∀ f, m.functions.find? (fnNameHit op) = some f →
      matchOperationInManifest op m =
        some ⟨op, m.repo_name, some f.name, none, f.module_path, "exact_function"⟩) ∧
    (m.functions.find? (fnNameHit op) = none →
      ∀ c, m.classes.find? (clsNameHit op) = some c →
        matchOperationInManifest op m =
          some ⟨op, m.repo_name, none, some c.name, c.module_path, "exact_class"⟩) ∧
    (m.functions.find? (fnNameHit op) = none →
      m.classes.find? (clsNameHit op) = none →
      ∀ f, m.functions.find? (fnDocHit op) = some f →
        matchOperationInManifest op m =
          some ⟨op, m.repo_name, some f.name, none, f.module_path, "docstring"⟩) ∧
    (m.functions.find? (fnNameHit op) = none →
      m.classes.find? (clsNameHit op) = none →
      m.functions.find? (fnDocHit op) = none →
      ∀ c, m.classes.find? (clsDocHit op) = some c →
        matchOperationInManifest op m =
          some ⟨op, m.repo_name, none, some c.name, c.module_path, "docstring"⟩) ∧
    (m.functions.find? (fnNameHit op) = none →
      m.classes.find? (clsNameHit op) = none →
      m.functions.find? (fnDocHit op) = none →
      m.classes.find? (clsDocHit op) = none →
      ∀ f, m.functions.find? (fnPathHit op) = some f →
        matchOperationInManifest op m =
          some ⟨op, m.repo_name, some f.name, none, f.module_path, "module_path"⟩) ∧
    (noTierHit op m → matchOperationInManifest op m = none) ∧
    (∀ (ops : List String) (manifests : List RepositoryManifest),
      (∀ m' ∈ manifests, noTierHit op m') → op ∈ ops →
        op ∈ (check_operations ops manifests).unmatched_operations) := by
  refine ⟨?_, ?_, ?_, ?_, ?_, ?_, ?_⟩
  · intro f hf
    simp [matchOperationInManifest, hf]
  · intro h1 c hc
    simp [matchOperationInManifest, h1, hc]
  · intro h1 h2 f hf
    simp [matchOperationInManifest, h1, h2, hf]
  · intro h1 h2 h3 c hc
    simp [matchOperationInManifest, h1, h2, h3, hc]
  · intro h1 h2 h3 h4 f hf
    simp [matchOperationInManifest, h1, h2, h3, h4, hf]
  · exact matchOperationInManifest_eq_none
  · intro ops manifests hmiss hmem
    have hnone : firstMatch op manifests = none := firstMatch_eq_none hmiss
    simpa [check_operations] using
      mem_unmatched_of_firstMatch_none manifests ops op hnone hmem

def mC5 : RepositoryManifest :=
  ⟨"repo", "1.0",
   [⟨"compute_score", "pkg.mod", some "Computes the score.", ""⟩],
   [⟨"Widget", "pkg.only_here", [], none, ""⟩]⟩

/-- C5 (witness): the tier-priority theorem applied at a concrete manifest:
"score" matches the function name tier, while "only_here", which occurs
only in a class's module path, is unmatched. -/
theorem c5_match_tier_priority_witness :
    mC5.functions.find? (fnNameHit "score") =
      some ⟨"compute_score", "pkg.mod", some "Computes the score.", ""⟩ ∧
    matchOperationInManifest "score" mC5 =
      some ⟨"score", "repo", some "compute_score", none, "pkg.mod",
        "exact_function"⟩ ∧
    noTierHit "only_here" mC5 ∧
    "only_here" ∈ (check_operations ["only_here"] [mC5]).unmatched_operations :=
  ⟨by decide,
   (c5_match_tier_priority "score" mC5).1
     ⟨"compute_score", "pkg.mod", some "Computes the score.", ""⟩ (by decide),
   by decide,
   (c5_match_tier_priority "only_here" mC5).2.2.2.2.2.2 ["only_here"] [mC5]
     (by decide) (by simp)⟩

-- ---------------------------------------------------------------------------
-- C10
-- ---------------------------------------------------------------------------

/-- Erase every class's method list, leaving all other manifest data
unchanged. -/
def stripMethods (m : RepositoryManifest) : RepositoryManifest :=
  { m with classes := m.classes.map (fun c => { c with methods := [] }) }

theorem find?_stripClasses (cs : List ManifestClass) (p : ManifestClass → Bool)
    (hp : ∀ c, p { c with methods := [] } = p c) :
    (cs.map (fun c => { c with methods := [] })).find? p =
      (cs.find? p).map (fun c => { c with methods := [] }) := by
  induction cs with
  | nil => rfl
  | cons c cs ih =>
    cases hc : p c with
    | true =>
      have hc2 : p { c with methods := [] } = true := by rw [hp c]; exact hc
      simp [List.find?_cons_of_pos, hc, hc2]
    | false =>
      have hc2 : p { c with methods := [] } = false := by rw [hp c]; exact hc
      simp only [List.map_cons]
      rw [List.find?_cons_of_neg _ (by simp [hc2]),
        List.find?_cons_of_neg _ (by simp [hc])]
      exact ih

theorem matchOperationInManifest_stripMethods (op : String)
    (m : RepositoryManifest) :
    matchOperationInManifest op (stripMethods m) =
      matchOperationInManifest op m := by
  have hs2 : (stripMethods m).classes.find? (clsNameHit op) =
      (m.classes.find? (clsNameHit op)).map (fun c => { c with methods := [] }) :=
    find?_stripClasses _ _ (fun c => rfl)
  have hs3 : (stripMethods m).classes.find? (clsDocHit op) =
      (m.classes.find? (clsDocHit op)).map (fun c => { c with methods := [] }) :=
    find?_stripClasses _ _ (fun c => rfl)
  have hs1 : (stripMethods m).functions = m.functions := rfl
  have hs4 : (stripMethods m).repo_name = m.repo_name := rfl
  unfold matchOperationInManifest
  rw [hs1, hs2, hs3, hs4]
  cases m.functions.find? (fnNameHit op) with
  | some f => rfl
  | none =>
    cases m.classes.find? (clsNameHit op) with
    | some c => rfl
    | none =>
      cases m.functions.find? (fnDocHit op) with
      | some f => rfl
      | none =>
        cases m.classes.find? (clsDocHit op) with
        | some c => rfl
        | none => rfl

theorem firstMatch_stripMethods (op : String)
    (manifests : List RepositoryManifest) :
    firstMatch op (manifests.map stripMethods) = firstMatch op manifests := by
  unfold firstMatch
  induction manifests with
  | nil => rfl
  | cons m ms ih =>
    rw [List.map_cons, List.findSome?_cons, List.findSome?_cons,
      matchOperationInManifest_stripMethods, ih]

theorem checkOpsAux_stripMethods (manifests : List RepositoryManifest)
    (ops : List String) (macc : List OperationMatch) (uacc : List String) :
    checkOpsAux (manifests.map stripMethods) ops macc uacc =
      checkOpsAux manifests ops macc uacc := by
  induction ops generalizing macc uacc with
  | nil => rfl
  | cons op ops ih =>
    cases h : firstMatch op manifests with
    | some mt => simp [checkOpsAux, firstMatch_stripMethods, h, ih]
    | none => simp [checkOpsAux, firstMatch_stripMethods, h, ih]

/-- C10: `check_operations` never examines the methods owned by a class:
erasing every method list leaves its result unchanged, and an operation
that misses all five match tiers — a condition that places no constraint
on method names or method docstrings — is always reported unmatched, so
text appearing only inside `ManifestClass.methods` entries never produces
a match. -/
theorem c10_methods_never_examined :
    ∀ (ops : List String) (manifests : List RepositoryManifest),
      (check_operations ops (manifests.map stripMethods) =
        check_operations ops manifests) ∧
      (∀ op ∈ ops, (∀ m ∈ manifests, noTierHit op m) →
        op ∈ (check_operations ops manifests).unmatched_operations) := by
  intro ops manifests
  constructor
  · simp [check_operations, checkOpsAux_stripMethods, List.map_map,
      Function.comp, stripMethods]
  · intro op hmem hmiss
    have hnone : firstMatch op manifests = none := firstMatch_eq_none hmiss
    simpa [check_operations] using
      mem_unmatched_of_firstMatch_none manifests ops op hnone hmem

def mC10 : RepositoryManifest :=
  ⟨"repo", "1.0", [⟨"alpha", "pkg.mod", none, ""⟩],
   [⟨"Beta", "pkg.mod",
     [⟨"special_method", "pkg.mod", some "Very special.", ""⟩],
     some "Beta helper.", ""⟩]⟩

/-- C10 (witness): the theorem applied at a concrete manifest whose only
occurrence of "special" is in a method name and a method docstring: the
operation is reported unmatched. -/
theorem c10_methods_never_examined_witness :
    (∀ m ∈ [mC10], noTierHit "special" m) ∧
    "special" ∈ (check_operations ["special"] [mC10]).unmatched_operations :=
  ⟨by decide,
   (c10_methods_never_examined ["special"] [mC10]).2 "special" (by simp)
     (by decide)⟩

-- ---------------------------------------------------------------------------
-- C7 / C8 helpers
-- ---------------------------------------------------------------------------

theorem mem_unionAdd (acc xs : List String) (x : String) :
    x ∈ unionAdd acc xs ↔ x ∈ acc ∨ x ∈ xs := by
  induction xs generalizing acc with
  | nil => simp [unionAdd]
  | cons y ys ih =>
    simp only [unionAdd, List.foldl_cons] at *
    by_cases h : acc.contains y
    · rw [if_pos h, ih]
      have hy : y ∈ acc := by simpa using h
      constructor
      · rintro (h1 | h1)
        · exact Or.inl h1
        · exact Or.inr (List.mem_cons_of_mem y h1)
      · rintro (h1 | h1)
        · exact Or.inl h1
        · rcases List.mem_cons.mp h1 with rfl | h2
          · exact Or.inl hy
          · exact Or.inr h2
    · rw [if_neg h, ih]
      simp only [List.mem_append, List.mem_singleton, List.mem_cons]
      tauto

theorem mem_insertSorted (x y : String) (l : List String) :
    x ∈ insertSorted y l ↔ x = y ∨ x ∈ l := by
  induction l with
  | nil => simp [insertSorted]
  | cons z zs ih =>
    simp only [insertSorted]
    split
    · simp
    · simp only [List.mem_cons, ih]
      tauto

theorem mem_sortStrings (l : List String) (x : String) :
    x ∈ sortStrings l ↔ x ∈ l := by
  induction l with
  | nil => simp [sortStrings]
  | cons y ys ih =>
    simp only [sortStrings, List.foldr_cons] at *
    rw [mem_insertSorted, ih, List.mem_cons]

theorem collectAffected_fst (g : DependencyGraph) (ts : List String) :
    (collectAffected g ts).1 = ts.filter (fun t => g.graphNodes.contains t) := by
  have key : ∀ (ts : List String) (acc : List String × List String),
      (ts.foldl (collectStep g) acc).1 =
        acc.1 ++ ts.filter (fun t => g.graphNodes.contains t) := by
    intro ts
    induction ts with
    | nil => simp
    | cons t ts ih =>
      intro acc
      rw [List.foldl_cons, ih]
      by_cases h : t ∈ g.graphNodes
      · simp [collectStep, h, List.filter_cons]
      · simp [collectStep, h, List.filter_cons]
  simpa using key ts ([], [])

theorem collectAffected_snd_mem (g : DependencyGraph) (ts : List String)
    (x : String) :
    x ∈ (collectAffected g ts).2 ↔
      ∃ t ∈ ts, g.graphNodes.contains t = true ∧ x ∈ g.downstream t := by
  have key : ∀ (ts : List String) (acc : List String × List String),
      x ∈ (ts.foldl (collectStep g) acc).2 ↔
        x ∈ acc.2 ∨ ∃ t ∈ ts, g.graphNodes.contains t = true ∧ x ∈ g.downstream t := by
    intro ts
    induction ts with
    | nil => simp
    | cons t ts ih =>
      intro acc
      rw [List.foldl_cons, ih]
      by_cases h : g.graphNodes.contains t
      · simp only [collectStep, if_pos h, mem_unionAdd]
        constructor
        · rintro ((h1 | h1) | h1)
          · exact Or.inl h1
          · exact Or.inr ⟨t, List.mem_cons_self t ts, h, h1⟩
          · obtain ⟨t', ht', hc, hd⟩ := h1
            exact Or.inr ⟨t', List.mem_cons_of_mem t ht', hc, hd⟩
        · rintro (h1 | ⟨t', ht', hc, hd⟩)
          · exact Or.inl (Or.inl h1)
          · rcases List.mem_cons.mp ht' with rfl | h2
            · exact Or.inl (Or.inr hd)
            · exact Or.inr ⟨t', h2, hc, hd⟩
      · simp only [collectStep, if_neg h]
        constructor
        · rintro (h1 | ⟨t', ht', hc, hd⟩)
          · exact Or.inl h1
          · exact Or.inr ⟨t', List.mem_cons_of_mem t ht', hc, hd⟩
        · rintro (h1 | ⟨t', ht', hc, hd⟩)
          · exact Or.inl h1
          · rcases List.mem_cons.mp ht' with rfl | h2
            · exact absurd hc (by simpa using h)
            · exact Or.inr ⟨t', h2, hc, hd⟩
  simpa using key ts ([], [])

theorem collectAffected_of_absent (g : DependencyGraph) (ts : List String)
    (h : ∀ t ∈ ts, g.graphNodes.contains t = false) :
    collectAffected g ts = ([], []) := by
  have key : ∀ (ts : List String) (acc : List String × List String),
      (∀ t ∈ ts, g.graphNodes.contains t = false) →
        ts.foldl (collectStep g) acc = acc := by
    intro ts
    induction ts with
    | nil => intro acc _; rfl
    | cons t ts ih =>
      intro acc hall
      rw [List.foldl_cons]
      have ht : g.graphNodes.contains t = false := hall t (List.mem_cons_self t ts)
      have ht2 : ¬ t ∈ g.graphNodes := by simpa using ht
      rw [show collectStep g acc t = acc from by simp [collectStep, ht2]]
      exact ih acc (fun u hu => hall u (List.mem_cons_of_mem t hu))
  exact key ts ([], []) h

theorem partitionAffected_eq (g : DependencyGraph) (l : List String) :
    partitionAffected g l =
      (l.filter (fun x => !is_test_node x g && !is_contract_node x g),
       l.filter (fun x => is_test_node x g),
       l.filter (fun x => !is_test_node x g && is_contract_node x g)) := by
  have key : ∀ (l : List String) (acc : List String × List String × List String),
      l.foldl (partitionStep g) acc =
        (acc.1 ++ l.filter (fun x => !is_test_node x g && !is_contract_node x g),
         acc.2.1 ++ l.filter (fun x => is_test_node x g),
         acc.2.2 ++ l.filter (fun x => !is_test_node x g && is_contract_node x g)) := by
    intro l
    induction l with
    | nil => simp
    | cons x l ih =>
      intro acc
      rw [List.foldl_cons, ih]
      cases ht : is_test_node x g with
      | true => simp [partitionStep, ht, List.filter_cons]
      | false =>
        cases hc : is_contract_node x g with
        | true => simp [partitionStep, ht, hc, List.filter_cons]
        | false => simp [partitionStep, ht, hc, List.filter_cons]
  simpa using key l ([], [], [])

theorem coverFold_eq (g : DependencyGraph) (l : List String) :
    l.foldl (coverStep g) ([], []) =
      (l.filter (fun f => hasTestNeighbor g f),
       l.filter (fun f => !hasTestNeighbor g f)) := by
  have key : ∀ (l : List String) (acc : List String × List String),
      l.foldl (coverStep g) acc =
        (acc.1 ++ l.filter (fun f => hasTestNeighbor g f),
         acc.2 ++ l.filter (fun f => !hasTestNeighbor g f)) := by
    intro l
    induction l with
    | nil => simp
    | cons f l ih =>
      intro acc
      rw [List.foldl_cons, ih]
      cases h : hasTestNeighbor g f with
      | true => simp [coverStep, h, List.filter_cons]
      | false => simp [coverStep, h, List.filter_cons]
  simpa using key l ([], [])

theorem length_filter_pair (l : List String) (p : String → Bool) :
    (l.filter p).length + (l.filter (fun x => !p x)).length = l.length := by
  induction l with
  | nil => rfl
  | cons x l ih =>
    cases h : p x <;> simp [List.filter_cons, h] <;> omega

theorem insertSorted_perm (x : String) (l : List String) :
    (insertSorted x l).Perm (x :: l) := by
  induction l with
  | nil => exact List.Perm.refl _
  | cons y ys ih =>
    simp only [insertSorted]
    split
    · exact List.Perm.refl _
    · exact List.Perm.trans (List.Perm.cons y ih) (List.Perm.swap x y ys)

theorem sortStrings_perm (l : List String) : (sortStrings l).Perm l := by
  induction l with
  | nil => exact List.Perm.refl _
  | cons x xs ih =>
    simp only [sortStrings, List.foldr_cons] at *
    exact List.Perm.trans (insertSorted_perm x _) (List.Perm.cons x ih)

theorem insertSorted_sorted (x : String) (l : List String)
    (h : List.Sorted (· ≤ ·) l) :
    List.Sorted (· ≤ ·) (insertSorted x l) := by
  induction l with
  | nil => simp [insertSorted]
  | cons y ys ih =>
    rw [List.sorted_cons] at h
    simp only [insertSorted]
    split
    next hxy =>
      rw [List.sorted_cons]
      constructor
      · intro b hb
        rcases List.mem_cons.mp hb with rfl | hb2
        · exact hxy
        · exact le_trans hxy (h.1 b hb2)
      · exact List.sorted_cons.mpr h
    next hxy =>
      rw [List.sorted_cons]
      constructor
      · intro b hb
        rcases (mem_insertSorted b x ys).mp hb with rfl | hb2
        · exact le_of_not_le hxy
        · exact h.1 b hb2
      · exact ih h.2

theorem sortStrings_sorted (l : List String) :
    List.Sorted (· ≤ ·) (sortStrings l) := by
  induction l with
  | nil => simp [sortStrings]
  | cons x xs ih =>
    simp only [sortStrings, List.foldr_cons] at *
    exact insertSorted_sorted x _ ih

theorem unionAdd_nodup (acc xs : List String) (h : acc.Nodup) :
    (unionAdd acc xs).Nodup := by
  induction xs generalizing acc with
  | nil => exact h
  | cons y ys ih =>
    simp only [unionAdd, List.foldl_cons] at *
    by_cases hy : acc.contains y
    · rw [if_pos hy]
      exact ih acc h
    · rw [if_neg hy]
      refine ih _ ?_
      have hy2 : y ∉ acc := by simpa using hy
      simp [List.nodup_append, h, hy2]

theorem collectAffected_snd_nodup (g : DependencyGraph) (ts : List String) :
    (collectAffected g ts).2.Nodup := by
  have key : ∀ (ts : List String) (acc : List String × List String),
      acc.2.Nodup → (ts.foldl (collectStep g) acc).2.Nodup := by
    intro ts
    induction ts with
    | nil => intro acc h; exact h
    | cons t ts ih =>
      intro acc h
      rw [List.foldl_cons]
      refine ih _ ?_
      unfold collectStep
      split
      · exact unionAdd_nodup _ _ h
      · exact h
  exact key ts ([], []) List.nodup_nil

theorem sortStrings_sorted_lt (l : List String) (h : l.Nodup) :
    List.Sorted (· < ·) (sortStrings l) := by
  have h1 : List.Sorted (· ≤ ·) (sortStrings l) := sortStrings_sorted l
  have h2 : (sortStrings l).Nodup := ((sortStrings_perm l).nodup_iff).mpr h
  exact (h1.and h2).imp (fun hab => lt_of_le_of_ne hab.1 hab.2)

theorem mem_filter_trichotomy (l : List String) (p q : String → Bool)
    (x : String) :
    (x ∈ l.filter (fun y => !p y && !q y) ∨ x ∈ l.filter p ∨
      x ∈ l.filter (fun y => !p y && q y)) ↔ x ∈ l := by
  simp only [List.mem_filter]
  cases hp : p x <;> cases hq : q x <;> simp [hp, hq]

-- ---------------------------------------------------------------------------
-- C7
-- ---------------------------------------------------------------------------

/-- C7: `compute_blast_radius` silently filters the targets to those
present in the graph (the report's target_nodes are exactly the present
ones, in input order); the union of the valid targets' downstream sets is
partitioned, in sorted order, into three pairwise-disjoint lists
(everything-else functions, tests, contracts), each strictly ascending and
hence duplicate-free; and when no target is present in the graph — in
particular for an empty target list — every list is empty and the risk is
low. -/
theorem c7_blast_radius_structure (targets : List String)
    (g : DependencyGraph) :
    ((compute_blast_radius targets g).target_nodes =
      targets.filter (fun t => g.graphNodes.contains t)) ∧
    (∀ x : String,
      (x ∈ (compute_blast_radius targets g).affected_functions ∨
       x ∈ (compute_blast_radius targets g).affected_tests ∨
       x ∈ (compute_blast_radius targets g).affected_contracts) ↔
      ∃ t ∈ targets, g.graphNodes.contains t = true ∧ x ∈ g.downstream t) ∧
    (∀ x : String,
      ¬ (x ∈ (compute_blast_radius targets g).affected_functions ∧
         x ∈ (compute_blast_radius targets g).affected_tests) ∧
      ¬ (x ∈ (compute_blast_radius targets g).affected_functions ∧
         x ∈ (compute_blast_radius targets g).affected_contracts) ∧
      ¬ (x ∈ (compute_blast_radius targets g).affected_tests ∧
         x ∈ (compute_blast_radius targets g).affected_contracts)) ∧
    ((∀ t ∈ targets, g.graphNodes.contains t = false) →
      compute_blast_radius targets g =
        { target_nodes := [], affected_functions := [], affected_tests := [],
          affected_contracts := [], risk_level := RiskLevel.low }) ∧
    (List.Sorted (· < ·) (compute_blast_radius targets g).affected_functions ∧
     List.Sorted (· < ·) (compute_blast_radius targets g).affected_tests ∧
     List.Sorted (· < ·) (compute_blast_radius targets g).affected_contracts) := by
  have htn : (compute_blast_radius targets g).target_nodes =
      (collectAffected g targets).1 := by
    simp [compute_blast_radius]
  have hf : (compute_blast_radius targets g).affected_functions =
      (sortStrings (collectAffected g targets).2).filter
        (fun x => !is_test_node x g && !is_contract_node x g) := by
    simp [compute_blast_radius, partitionAffected_eq]
  have ht : (compute_blast_radius targets g).affected_tests =
      (sortStrings (collectAffected g targets).2).filter
        (fun x => is_test_node x g) := by
    simp [compute_blast_radius, partitionAffected_eq]
  have hc : (compute_blast_radius targets g).affected_contracts =
      (sortStrings (collectAffected g targets).2).filter
        (fun x => !is_test_node x g && is_contract_node x g) := by
    simp [compute_blast_radius, partitionAffected_eq]
  refine ⟨?_, ?_, ?_, ?_, ?_⟩
  · rw [htn, collectAffected_fst]
  · intro x
    rw [hf, ht, hc, mem_filter_trichotomy, mem_sortStrings,
      collectAffected_snd_mem]
  · intro x
    rw [hf, ht, hc]
    cases htx : is_test_node x g <;> cases hcx : is_contract_node x g <;>
      simp [List.mem_filter, htx, hcx]
  · intro h
    have h0 : collectAffected g targets = ([], []) :=
      collectAffected_of_absent g targets h
    simp [compute_blast_radius, h0, sortStrings, partitionAffected,
      classify_risk]
  · have hnd : (collectAffected g targets).2.Nodup :=
      collectAffected_snd_nodup g targets
    have hs := sortStrings_sorted_lt _ hnd
    refine ⟨?_, ?_, ?_⟩
    · rw [hf]
      exact hs.sublist (List.filter_sublist _)
    · rw [ht]
      exact hs.sublist (List.filter_sublist _)
    · rw [hc]
      exact hs.sublist (List.filter_sublist _)

def gC7 : DependencyGraph := ⟨["n1"], [], []⟩

/-- C7 (witness): the structure theorem applied with an empty target list
on a concrete one-node graph. -/
theorem c7_blast_radius_structure_witness :
    (∀ t ∈ ([] : List String), gC7.graphNodes.contains t = false) ∧
    compute_blast_radius [] gC7 =
      { target_nodes := [], affected_functions := [], affected_tests := [],
        affected_contracts := [], risk_level := RiskLevel.low } :=
  ⟨by simp, (c7_blast_radius_structure [] gC7).2.2.2.1 (by simp)⟩

-- ---------------------------------------------------------------------------
-- C8
-- ---------------------------------------------------------------------------

/-- C8: `assess_test_coverage([], graph)` returns ratio exactly 1 and zero
additional tests; for non-empty input a function is covered exactly when
some node of `upstream(f) ∪ downstream(f)` is a test node, the ratio is
covered / (covered + uncovered), and `additional_tests_needed` is the
number of uncovered functions. -/
theorem c8_test_coverage_assessment (affected : List String)
    (g : DependencyGraph) :
    (assess_test_coverage [] g =
      { covered_functions := [], uncovered_functions := [],
        coverage_ratio := 1, additional_tests_needed := 0 }) ∧
    (∀ f, hasTestNeighbor g f = true ↔
      ∃ n, (n ∈ g.upstream f ∨ n ∈ g.downstream f) ∧ is_test_node n g = true) ∧
    (affected ≠ [] →
      (∀ f, f ∈ (assess_test_coverage affected g).covered_functions ↔
        f ∈ affected ∧ hasTestNeighbor g f = true) ∧
      (∀ f, f ∈ (assess_test_coverage affected g).uncovered_functions ↔
        f ∈ affected ∧ hasTestNeighbor g f = false) ∧
      ((assess_test_coverage affected g).coverage_ratio =
        ((assess_test_coverage affected g).covered_functions.length : ℚ) /
          ((((assess_test_coverage affected g).covered_functions.length +
            (assess_test_coverage affected g).uncovered_functions.length : ℕ)) : ℚ)) ∧
      (assess_test_coverage affected g).additional_tests_needed =
        (assess_test_coverage affected g).uncovered_functions.length) := by
  refine ⟨rfl, ?_, ?_⟩
  · intro f
    simp [hasTestNeighbor, List.any_eq_true, mem_unionAdd]
  · intro hne
    have hne' : affected.isEmpty = false := by
      simpa [List.isEmpty_iff] using hne
    have hcov : (assess_test_coverage affected g).covered_functions =
        affected.filter (fun f => hasTestNeighbor g f) := by
      simp [assess_test_coverage, hne', coverFold_eq]
    have huncov : (assess_test_coverage affected g).uncovered_functions =
        affected.filter (fun f => !hasTestNeighbor g f) := by
      simp [assess_test_coverage, hne', coverFold_eq]
    have hadd : (assess_test_coverage affected g).additional_tests_needed =
        (affected.filter (fun f => !hasTestNeighbor g f)).length := by
      simp [assess_test_coverage, hne', coverFold_eq]
    refine ⟨?_, ?_, ?_, ?_⟩
    · intro f
      rw [hcov]
      simp [List.mem_filter]
    · intro f
      rw [huncov]
      simp [List.mem_filter]
    · have hsum := length_filter_pair affected (fun f => hasTestNeighbor g f)
      have hpos : 1 ≤ affected.length := List.length_pos.mpr hne
      have hratio : (assess_test_coverage affected g).coverage_ratio =
          clampRatio
            (((affected.filter (fun f => hasTestNeighbor g f)).length : ℚ) /
              ((max ((affected.filter (fun f => hasTestNeighbor g f)).length +
                (affected.filter (fun f => !hasTestNeighbor g f)).length) 1 : ℕ) : ℚ)) := by
        simp [assess_test_coverage, hne', coverFold_eq]
      rw [hratio, hcov, huncov]
      have hb := natRatio_bounds
        ((affected.filter (fun f => hasTestNeighbor g f)).length)
        ((affected.filter (fun f => !hasTestNeighbor g f)).length)
      rw [clampRatio_of_bounded hb.1 hb.2]
      have hmax : max ((affected.filter (fun f => hasTestNeighbor g f)).length +
          (affected.filter (fun f => !hasTestNeighbor g f)).length) 1 =
          (affected.filter (fun f => hasTestNeighbor g f)).length +
          (affected.filter (fun f => !hasTestNeighbor g f)).length := by
        omega
      rw [hmax]
    · rw [hadd, huncov]

def gC8 : DependencyGraph :=
  ⟨["a", "tests.t1"], [("a", "tests.t1", "contains")], []⟩

/-- C8 (witness): the assessment theorem applied on a concrete two-node
graph where the single affected function reaches a test node downstream. -/
theorem c8_test_coverage_assessment_witness :
    (["a"] : List String) ≠ [] ∧
    ("a" ∈ (assess_test_coverage ["a"] gC8).covered_functions ↔
      "a" ∈ (["a"] : List String) ∧ hasTestNeighbor gC8 "a" = true) :=
  ⟨by simp, ((c8_test_coverage_assessment ["a"] gC8).2.2 (by simp)).1 "a"⟩

-- ---------------------------------------------------------------------------
-- C9 helpers: edge-shape soundness and pair presence
-- ---------------------------------------------------------------------------

/-- All module paths mentioned by a manifest's functions and classes. -/
def manifestModulePaths (m : RepositoryManifest) : List String :=
  m.functions.map (·.module_path) ++ m.classes.map (·.module_path)

/-- All function node ids generated for a manifest list. -/
def functionIds (ms : List RepositoryManifest) : List String :=
  ms.flatMap (fun m => m.functions.map (functionId m.repo_name))

/-- All class node ids generated for a manifest list. -/
def classIds (ms : List RepositoryManifest) : List String :=
  ms.flatMap (fun m => m.classes.map (classId m.repo_name))

/-- All method node ids generated for a manifest list. -/
def methodIds (ms : List RepositoryManifest) : List String :=
  ms.flatMap (fun m => m.classes.flatMap (fun c => c.methods.map (methodId m.repo_name c)))

/-- All module node ids generated for a manifest list. -/
def moduleIds (ms : List RepositoryManifest) : List String :=
  ms.flatMap (fun m => (manifestModulePaths m).map (moduleId m.repo_name))

/-- The shapes an edge written while processing manifest `m` can have. -/
def EdgeOkFor (m : RepositoryManifest) (e : String × String × String) : Prop :=
  (∃ f ∈ m.functions,
    e = (moduleId m.repo_name f.module_path, functionId m.repo_name f, "contains")) ∨
  (∃ c ∈ m.classes,
    e = (moduleId m.repo_name c.module_path, classId m.repo_name c, "contains")) ∨
  (∃ c ∈ m.classes, ∃ mm ∈ c.methods,
    e = (classId m.repo_name c, methodId m.repo_name c mm, "method_of")) ∨
  (∃ mp1 ∈ manifestModulePaths m, ∃ mp2 ∈ manifestModulePaths m,
    e = (moduleId m.repo_name mp1, moduleId m.repo_name mp2, "imports"))

/-- An edge of the built graph comes from processing some manifest. -/
def EdgeOk (ms : List RepositoryManifest) (e : String × String × String) : Prop :=
  ∃ m ∈ ms, EdgeOkFor m e

/-- Global well-formedness of the generated node ids (the spec's "node
identifiers must be globally unique" invariant, in the weaker role-wise
form the invariants need): no method id collides with a function, class or
module id, and no module id collides with a function or class id. -/
abbrev RolesDisjoint (ms : List RepositoryManifest) : Prop :=
  (∀ x ∈ methodIds ms, x ∉ functionIds ms ∧ x ∉ classIds ms ∧ x ∉ moduleIds ms) ∧
  (∀ x ∈ moduleIds ms, x ∉ functionIds ms ∧ x ∉ classIds ms)

theorem edges_setNode (g : DependencyGraph) (id : String) (n : GraphNode) :
    (g.setNode id n).edges = g.edges := rfl

theorem edges_addNode (g : DependencyGraph) (id : String) :
    (g.addNode id).edges = g.edges := by
  unfold DependencyGraph.addNode
  split <;> rfl

theorem addEdge_edges (g : DependencyGraph) (u v t : String) :
    (g.addEdge u v t).edges =
      if g.edges.any (fun e => e.1 == u && e.2.1 == v) then
        g.edges.map (fun e => if e.1 == u && e.2.1 == v then (u, v, t) else e)
      else g.edges ++ [(u, v, t)] := by
  unfold DependencyGraph.addEdge
  simp only [edges_addNode]
  split <;> rfl

theorem mem_edges_addEdge {g : DependencyGraph} {u v t : String}
    {e : String × String × String} (h : e ∈ (g.addEdge u v t).edges) :
    e ∈ g.edges ∨ e = (u, v, t) := by
  rw [addEdge_edges] at h
  split at h
  · rcases List.mem_map.mp h with ⟨e', he', hfe⟩
    by_cases hc : (e'.1 == u && e'.2.1 == v) = true
    · rw [if_pos hc] at hfe
      exact Or.inr hfe.symm
    · rw [if_neg hc] at hfe
      exact Or.inl (hfe ▸ he')
  · rcases List.mem_append.mp h with h1 | h1
    · exact Or.inl h1
    · exact Or.inr (List.mem_singleton.mp h1)

theorem addEdge_pres_prop {P : String × String × String → Prop}
    {g : DependencyGraph} {u v t : String}
    (hg : ∀ e ∈ g.edges, P e) (hnew : P (u, v, t)) :
    ∀ e ∈ (g.addEdge u v t).edges, P e := by
  intro e he
  rcases mem_edges_addEdge he with h | rfl
  · exact hg e h
  · exact hnew

/-- The ordered pair `(u, v)` carries some edge in the graph. -/
def pairMem (g : DependencyGraph) (u v : String) : Prop :=
  ∃ t, (u, v, t) ∈ g.edges

theorem pairMem_addEdge {g : DependencyGraph} {a b : String} (u v t : String)
    (h : pairMem g a b) : pairMem (g.addEdge u v t) a b := by
  obtain ⟨t0, ht0⟩ := h
  unfold pairMem
  rw [addEdge_edges]
  split
  · by_cases hc : ((a, b, t0).1 == u && (a, b, t0).2.1 == v) = true
    · have hab : a = u ∧ b = v := by
        have h1 := hc
        simp only [Bool.and_eq_true, beq_iff_eq] at h1
        exact h1
      obtain ⟨ha, hb⟩ := hab
      subst ha
      subst hb
      refine ⟨t, ?_⟩
      have hmem := List.mem_map_of_mem
        (fun e : String × String × String =>
          if e.1 == a && e.2.1 == b then (a, b, t) else e) ht0
      dsimp only at hmem
      rw [if_pos hc] at hmem
      exact hmem
    · refine ⟨t0, ?_⟩
      have hmem := List.mem_map_of_mem
        (fun e : String × String × String =>
          if e.1 == u && e.2.1 == v then (u, v, t) else e) ht0
      dsimp only at hmem
      rw [if_neg hc] at hmem
      exact hmem
  · exact ⟨t0, List.mem_append.mpr (Or.inl ht0)⟩

theorem pairMem_addEdge_self (g : DependencyGraph) (u v t : String) :
    pairMem (g.addEdge u v t) u v := by
  unfold pairMem
  rw [addEdge_edges]
  split
  next hany =>
    rcases List.any_eq_true.mp hany with ⟨e0, he0, hc⟩
    refine ⟨t, ?_⟩
    have hmem := List.mem_map_of_mem
      (fun e : String × String × String =>
        if e.1 == u && e.2.1 == v then (u, v, t) else e) he0
    dsimp only at hmem
    rw [if_pos hc] at hmem
    exact hmem
  next =>
    exact ⟨t, List.mem_append.mpr (Or.inr (List.mem_singleton.mpr rfl))⟩

theorem edges_ensureModule (g : DependencyGraph) (mid : String)
    (n : GraphNode) :
    (if g.hasNode mid then g else (g.setNode mid n).addNode mid).edges =
      g.edges := by
  split
  · rfl
  · rw [edges_addNode, edges_setNode]

theorem processFunction_edges (repo : String)
    (st : DependencyGraph × List String) (f : ManifestFunction) :
    ∀ e ∈ (processFunction repo st f).1.edges,
      e ∈ st.1.edges ∨
        e = (moduleId repo f.module_path, functionId repo f, "contains") := by
  intro e he
  simp only [processFunction] at he
  rcases mem_edges_addEdge he with h | h
  · rw [edges_ensureModule, edges_addNode, edges_setNode] at h
    exact Or.inl h
  · exact Or.inr h

theorem processFunction_seen (repo : String)
    (st : DependencyGraph × List String) (f : ManifestFunction) :
    (processFunction repo st f).2 =
      if st.2.contains f.module_path then st.2 else st.2 ++ [f.module_path] :=
  rfl

theorem processMethod_edges (repo : String) (c : ManifestClass)
    (g : DependencyGraph) (m : ManifestFunction) :
    ∀ e ∈ (processMethod repo c g m).edges,
      e ∈ g.edges ∨ e = (classId repo c, methodId repo c m, "method_of") := by
  intro e he
  simp only [processMethod] at he
  rcases mem_edges_addEdge he with h | h
  · rw [edges_addNode, edges_setNode] at h
    exact Or.inl h
  · exact Or.inr h

theorem foldMethods_edges (repo : String) (c : ManifestClass)
    (l : List ManifestFunction) (g : DependencyGraph) :
    ∀ e ∈ (l.foldl (processMethod repo c) g).edges,
      e ∈ g.edges ∨
        ∃ mm ∈ l, e = (classId repo c, methodId repo c mm, "method_of") := by
  induction l generalizing g with
  | nil => intro e he; exact Or.inl he
  | cons m l ih =>
    intro e he
    rw [List.foldl_cons] at he
    rcases ih (processMethod repo c g m) e he with h | ⟨mm, hmm, rfl⟩
    · rcases processMethod_edges repo c g m e h with h1 | rfl
      · exact Or.inl h1
      · exact Or.inr ⟨m, List.mem_cons_self m l, rfl⟩
    · exact Or.inr ⟨mm, List.mem_cons_of_mem m hmm, rfl⟩

theorem processClass_edges (repo : String)
    (st : DependencyGraph × List String) (c : ManifestClass) :
    ∀ e ∈ (processClass repo st c).1.edges,
      e ∈ st.1.edges ∨
        e = (moduleId repo c.module_path, classId repo c, "contains") ∨
        ∃ mm ∈ c.methods, e = (classId repo c, methodId repo c mm, "method_of") := by
  intro e he
  simp only [processClass] at he
  rcases foldMethods_edges repo c c.methods _ e he with h | ⟨mm, hmm, rfl⟩
  · rcases mem_edges_addEdge h with h1 | rfl
    · rw [edges_ensureModule, edges_addNode, edges_setNode] at h1
      exact Or.inl h1
    · exact Or.inr (Or.inl rfl)
  · exact Or.inr (Or.inr ⟨mm, hmm, rfl⟩)

theorem processClass_seen (repo : String)
    (st : DependencyGraph × List String) (c : ManifestClass) :
    (processClass repo st c).2 =
      if st.2.contains c.module_path then st.2 else st.2 ++ [c.module_path] :=
  rfl

theorem siblingStep_edges (repo mp1 : String) (g : DependencyGraph)
    (mp2 : String) :
    ∀ e ∈ (siblingStep repo mp1 g mp2).edges,
      e ∈ g.edges ∨
        e = (moduleId repo mp1, moduleId repo mp2, "imports") ∨
        e = (moduleId repo mp2, moduleId repo mp1, "imports") := by
  intro e he
  unfold siblingStep at he
  split at he
  · rcases mem_edges_addEdge he with h | rfl
    · rcases mem_edges_addEdge h with h1 | rfl
      · exact Or.inl h1
      · exact Or.inr (Or.inl rfl)
    · exact Or.inr (Or.inr rfl)
  · exact Or.inl he

theorem addSiblingEdgesFor_edges (repo mp1 : String) (g : DependencyGraph)
    (rest : List String) :
    ∀ e ∈ (addSiblingEdgesFor repo mp1 g rest).edges,
      e ∈ g.edges ∨
        ∃ mp2 ∈ rest,
          (e = (moduleId repo mp1, moduleId repo mp2, "imports") ∨
           e = (moduleId repo mp2, moduleId repo mp1, "imports")) := by
  unfold addSiblingEdgesFor
  induction rest generalizing g with
  | nil => intro e he; exact Or.inl he
  | cons mp2 rest ih =>
    intro e he
    rw [List.foldl_cons] at he
    rcases ih (siblingStep repo mp1 g mp2) e he with h | ⟨mp3, hmp3, h⟩
    · rcases siblingStep_edges repo mp1 g mp2 e h with h1 | h1
      · exact Or.inl h1
      · exact Or.inr ⟨mp2, List.mem_cons_self mp2 rest, h1⟩
    · exact Or.inr ⟨mp3, List.mem_cons_of_mem mp2 hmp3, h⟩

theorem addSiblingEdges_edges (repo : String) (l : List String)
    (g : DependencyGraph) :
    ∀ e ∈ (addSiblingEdges repo g l).edges,
      e ∈ g.edges ∨
        ∃ mp1 ∈ l, ∃ mp2 ∈ l,
          e = (moduleId repo mp1, moduleId repo mp2, "imports") := by
  induction l generalizing g with
  | nil => intro e he; exact Or.inl he
  | cons mp1 rest ih =>
    intro e he
    rw [show addSiblingEdges repo g (mp1 :: rest) =
      addSiblingEdges repo (addSiblingEdgesFor repo mp1 g rest) rest from rfl] at he
    rcases ih (addSiblingEdgesFor repo mp1 g rest) e he with h | ⟨a, ha, b, hb, rfl⟩
    · rcases addSiblingEdgesFor_edges repo mp1 g rest e h with h1 | ⟨mp2, hmp2, h1⟩
      · exact Or.inl h1
      · rcases h1 with rfl | rfl
        · exact Or.inr ⟨mp1, List.mem_cons_self mp1 rest, mp2,
            List.mem_cons_of_mem mp1 hmp2, rfl⟩
        · exact Or.inr ⟨mp2, List.mem_cons_of_mem mp1 hmp2, mp1,
            List.mem_cons_self mp1 rest, rfl⟩
    · exact Or.inr ⟨a, List.mem_cons_of_mem mp1 ha, b,
        List.mem_cons_of_mem mp1 hb, rfl⟩

theorem foldFunctions_edges (repo : String) (fs : List ManifestFunction)
    (st : DependencyGraph × List String) :
    ∀ e ∈ (fs.foldl (processFunction repo) st).1.edges,
      e ∈ st.1.edges ∨
        ∃ f ∈ fs, e = (moduleId repo f.module_path, functionId repo f, "contains") := by
  induction fs generalizing st with
  | nil => intro e he; exact Or.inl he
  | cons f fs ih =>
    intro e he
    rw [List.foldl_cons] at he
    rcases ih (processFunction repo st f) e he with h | ⟨f', hf', rfl⟩
    · rcases processFunction_edges repo st f e h with h1 | rfl
      · exact Or.inl h1
      · exact Or.inr ⟨f, List.mem_cons_self f fs, rfl⟩
    · exact Or.inr ⟨f', List.mem_cons_of_mem f hf', rfl⟩

theorem foldClasses_edges (repo : String) (cs : List ManifestClass)
    (st : DependencyGraph × List String) :
    ∀ e ∈ (cs.foldl (processClass repo) st).1.edges,
      e ∈ st.1.edges ∨
        ∃ c ∈ cs,
          (e = (moduleId repo c.module_path, classId repo c, "contains") ∨
           ∃ mm ∈ c.methods,
             e = (classId repo c, methodId repo c mm, "method_of")) := by
  induction cs generalizing st with
  | nil => intro e he; exact Or.inl he
  | cons c cs ih =>
    intro e he
    rw [List.foldl_cons] at he
    rcases ih (processClass repo st c) e he with h | ⟨c', hc', h1⟩
    · rcases processClass_edges repo st c e h with h1 | h1
      · exact Or.inl h1
      · exact Or.inr ⟨c, List.mem_cons_self c cs, h1⟩
    · exact Or.inr ⟨c', List.mem_cons_of_mem c hc', h1⟩

theorem mem_appendIfAbsent (seen : List String) (mp x : String) :
    (x ∈ if seen.contains mp then seen else seen ++ [mp]) ↔
      x ∈ seen ∨ x = mp := by
  split
  next h =>
    have hmp : mp ∈ seen := by simpa using h
    constructor
    · exact Or.inl
    · rintro (h1 | rfl)
      · exact h1
      · exact hmp
  next h =>
    simp [List.mem_append]

theorem foldFunctions_seen (repo : String) (fs : List ManifestFunction)
    (st : DependencyGraph × List String) (x : String) :
    x ∈ (fs.foldl (processFunction repo) st).2 ↔
      x ∈ st.2 ∨ ∃ f ∈ fs, x = f.module_path := by
  induction fs generalizing st with
  | nil => simp
  | cons f fs ih =>
    rw [List.foldl_cons, ih]
    rw [show (processFunction repo st f).2 =
      if st.2.contains f.module_path then st.2 else st.2 ++ [f.module_path]
      from rfl, mem_appendIfAbsent]
    constructor
    · rintro ((h | rfl) | ⟨f', hf', rfl⟩)
      · exact Or.inl h
      · exact Or.inr ⟨f, List.mem_cons_self f fs, rfl⟩
      · exact Or.inr ⟨f', List.mem_cons_of_mem f hf', rfl⟩
    · rintro (h | ⟨f', hf', rfl⟩)
      · exact Or.inl (Or.inl h)
      · rcases List.mem_cons.mp hf' with rfl | h2
        · exact Or.inl (Or.inr rfl)
        · exact Or.inr ⟨f', h2, rfl⟩

theorem foldClasses_seen (repo : String) (cs : List ManifestClass)
    (st : DependencyGraph × List String) (x : String) :
    x ∈ (cs.foldl (processClass repo) st).2 ↔
      x ∈ st.2 ∨ ∃ c ∈ cs, x = c.module_path := by
  induction cs generalizing st with
  | nil => simp
  | cons c cs ih =>
    rw [List.foldl_cons, ih]
    rw [show (processClass repo st c).2 =
      if st.2.contains c.module_path then st.2 else st.2 ++ [c.module_path]
      from rfl, mem_appendIfAbsent]
    constructor
    · rintro ((h | rfl) | ⟨c', hc', rfl⟩)
      · exact Or.inl h
      · exact Or.inr ⟨c, List.mem_cons_self c cs, rfl⟩
      · exact Or.inr ⟨c', List.mem_cons_of_mem c hc', rfl⟩
    · rintro (h | ⟨c', hc', rfl⟩)
      · exact Or.inl (Or.inl h)
      · rcases List.mem_cons.mp hc' with rfl | h2
        · exact Or.inl (Or.inr rfl)
        · exact Or.inr ⟨c', h2, rfl⟩

theorem processManifest_seen (g : DependencyGraph) (m : RepositoryManifest)
    (x : String) :
    x ∈ (m.classes.foldl (processClass m.repo_name)
        (m.functions.foldl (processFunction m.repo_name) (g, []))).2 ↔
      x ∈ manifestModulePaths m := by
  rw [foldClasses_seen, foldFunctions_seen]
  simp [manifestModulePaths, List.mem_append, List.mem_map, eq_comm]

theorem processManifest_edges (g : DependencyGraph)
    (m : RepositoryManifest) :
    ∀ e ∈ (processManifest g m).edges, e ∈ g.edges ∨ EdgeOkFor m e := by
  intro e he
  simp only [processManifest] at he
  rcases addSiblingEdges_edges m.repo_name _ _ e he with h | ⟨mp1, h1, mp2, h2, rfl⟩
  · rcases foldClasses_edges m.repo_name m.classes _ e h with h1 | ⟨c, hc, h1⟩
    · rcases foldFunctions_edges m.repo_name m.functions _ e h1 with h2 | ⟨f, hf, rfl⟩
      · exact Or.inl h2
      · exact Or.inr (Or.inl ⟨f, hf, rfl⟩)
    · rcases h1 with rfl | ⟨mm, hmm, rfl⟩
      · exact Or.inr (Or.inr (Or.inl ⟨c, hc, rfl⟩))
      · exact Or.inr (Or.inr (Or.inr (Or.inl ⟨c, hc, mm, hmm, rfl⟩)))
  · refine Or.inr (Or.inr (Or.inr (Or.inr ⟨mp1, ?_, mp2, ?_, rfl⟩)))
    · exact (processManifest_seen g m mp1).mp h1
    · exact (processManifest_seen g m mp2).mp h2

theorem build_edges_sound (ms : List RepositoryManifest) :
    ∀ e ∈ (build_from_manifests ms).edges, EdgeOk ms e := by
  have key : ∀ (ms' : List RepositoryManifest) (g : DependencyGraph),
      (∀ e ∈ g.edges, EdgeOk ms e) → (∀ m ∈ ms', m ∈ ms) →
      ∀ e ∈ (ms'.foldl processManifest g).edges, EdgeOk ms e := by
    intro ms'
    induction ms' with
    | nil => intro g hg _ e he; exact hg e he
    | cons m ms' ih =>
      intro g hg hmem e he
      rw [List.foldl_cons] at he
      refine ih (processManifest g m) ?_
        (fun m' hm' => hmem m' (List.mem_cons_of_mem m hm')) e he
      intro e' he'
      rcases processManifest_edges g m e' he' with h | h
      · exact hg e' h
      · exact ⟨m, hmem m (List.mem_cons_self m ms'), h⟩
  intro e he
  exact key ms ⟨[], [], []⟩ (by simp) (fun m hm => hm) e he

theorem pairMem_of_edges_eq {g g' : DependencyGraph}
    (h : g'.edges = g.edges) {a b : String} (hp : pairMem g a b) :
    pairMem g' a b := by
  obtain ⟨t, ht⟩ := hp
  exact ⟨t, h ▸ ht⟩

theorem pairMem_siblingStep (repo mp1 : String) (g : DependencyGraph)
    (mp2 : String) {a b : String} (h : pairMem g a b) :
    pairMem (siblingStep repo mp1 g mp2) a b := by
  unfold siblingStep
  split
  · exact pairMem_addEdge _ _ _ (pairMem_addEdge _ _ _ h)
  · exact h

theorem pairMem_addSiblingEdgesFor (repo mp1 : String)
    (rest : List String) (g : DependencyGraph) {a b : String}
    (h : pairMem g a b) :
    pairMem (addSiblingEdgesFor repo mp1 g rest) a b := by
  unfold addSiblingEdgesFor
  induction rest generalizing g with
  | nil => exact h
  | cons x rest ih =>
    rw [List.foldl_cons]
    exact ih (siblingStep repo mp1 g x) (pairMem_siblingStep repo mp1 g x h)

theorem pairMem_addSiblingEdges (repo : String) (l : List String)
    (g : DependencyGraph) {a b : String} (h : pairMem g a b) :
    pairMem (addSiblingEdges repo g l) a b := by
  induction l generalizing g with
  | nil => exact h
  | cons x rest ih =>
    rw [show addSiblingEdges repo g (x :: rest) =
      addSiblingEdges repo (addSiblingEdgesFor repo x g rest) rest from rfl]
    exact ih (addSiblingEdgesFor repo x g rest)
      (pairMem_addSiblingEdgesFor repo x rest g h)

theorem pairMem_processFunction (repo : String)
    (st : DependencyGraph × List String) (f : ManifestFunction)
    {a b : String} (h : pairMem st.1 a b) :
    pairMem (processFunction repo st f).1 a b := by
  simp only [processFunction]
  refine pairMem_addEdge _ _ _ ?_
  exact pairMem_of_edges_eq
    (by rw [edges_ensureModule, edges_addNode, edges_setNode]) h

theorem pairMem_foldFunctions (repo : String) (fs : List ManifestFunction)
    (st : DependencyGraph × List String) {a b : String}
    (h : pairMem st.1 a b) :
    pairMem (fs.foldl (processFunction repo) st).1 a b := by
  induction fs generalizing st with
  | nil => exact h
  | cons f fs ih =>
    rw [List.foldl_cons]
    exact ih (processFunction repo st f) (pairMem_processFunction repo st f h)

theorem pairMem_processMethod (repo : String) (c : ManifestClass)
    (g : DependencyGraph) (m : ManifestFunction) {a b : String}
    (h : pairMem g a b) :
    pairMem (processMethod repo c g m) a b := by
  simp only [processMethod]
  refine pairMem_addEdge _ _ _ ?_
  exact pairMem_of_edges_eq (by rw [edges_addNode, edges_setNode]) h

theorem pairMem_foldMethods (repo : String) (c : ManifestClass)
    (l : List ManifestFunction) (g : DependencyGraph) {a b : String}
    (h : pairMem g a b) :
    pairMem (l.foldl (processMethod repo c) g) a b := by
  induction l generalizing g with
  | nil => exact h
  | cons m l ih =>
    rw [List.foldl_cons]
    exact ih (processMethod repo c g m) (pairMem_processMethod repo c g m h)

theorem pairMem_processClass (repo : String)
    (st : DependencyGraph × List String) (c : ManifestClass)
    {a b : String} (h : pairMem st.1 a b) :
    pairMem (processClass repo st c).1 a b := by
  simp only [processClass]
  refine pairMem_foldMethods repo c c.methods _ ?_
  refine pairMem_addEdge _ _ _ ?_
  exact pairMem_of_edges_eq
    (by rw [edges_ensureModule, edges_addNode, edges_setNode]) h

theorem pairMem_foldClasses (repo : String) (cs : List ManifestClass)
    (st : DependencyGraph × List String) {a b : String}
    (h : pairMem st.1 a b) :
    pairMem (cs.foldl (processClass repo) st).1 a b := by
  induction cs generalizing st with
  | nil => exact h
  | cons c cs ih =>
    rw [List.foldl_cons]
    exact ih (processClass repo st c) (pairMem_processClass repo st c h)

theorem pairMem_processManifest (g : DependencyGraph)
    (m : RepositoryManifest) {a b : String} (h : pairMem g a b) :
    pairMem (processManifest g m) a b := by
  simp only [processManifest]
  exact pairMem_addSiblingEdges _ _ _
    (pairMem_foldClasses _ _ _ (pairMem_foldFunctions _ _ _ h))

theorem pairMem_foldManifests (ms : List RepositoryManifest)
    (g : DependencyGraph) {a b : String} (h : pairMem g a b) :
    pairMem (ms.foldl processManifest g) a b := by
  induction ms generalizing g with
  | nil => exact h
  | cons m ms ih =>
    rw [List.foldl_cons]
    exact ih (processManifest g m) (pairMem_processManifest g m h)

theorem pairMem_addSiblingEdgesFor_create (repo mp1 : String)
    (mp2 : String)
    (hcond : (parentPackage mp1 != "" &&
      parentPackage mp1 == parentPackage mp2) = true) :
    ∀ (rest : List String) (g : DependencyGraph), mp2 ∈ rest →
      pairMem (addSiblingEdgesFor repo mp1 g rest)
        (moduleId repo mp1) (moduleId repo mp2) ∧
      pairMem (addSiblingEdgesFor repo mp1 g rest)
        (moduleId repo mp2) (moduleId repo mp1) := by
  intro rest
  induction rest with
  | nil => intro g hmem; cases hmem
  | cons x rest ih =>
    intro g hmem
    rw [show addSiblingEdgesFor repo mp1 g (x :: rest) =
      addSiblingEdgesFor repo mp1 (siblingStep repo mp1 g x) rest from rfl]
    rcases List.mem_cons.mp hmem with rfl | h2
    · have hadd : pairMem (siblingStep repo mp1 g mp2)
          (moduleId repo mp1) (moduleId repo mp2) ∧
          pairMem (siblingStep repo mp1 g mp2)
            (moduleId repo mp2) (moduleId repo mp1) := by
        unfold siblingStep
        rw [if_pos hcond]
        exact ⟨pairMem_addEdge _ _ _ (pairMem_addEdge_self g _ _ _),
          pairMem_addEdge_self _ _ _ _⟩
      exact ⟨pairMem_addSiblingEdgesFor _ _ _ _ hadd.1,
        pairMem_addSiblingEdgesFor _ _ _ _ hadd.2⟩
    · exact ih (siblingStep repo mp1 g x) h2

theorem pairMem_addSiblingEdges_create (repo mpA mpB : String)
    (hne : mpA ≠ mpB) (hp1 : parentPackage mpA ≠ "")
    (hp2 : parentPackage mpA = parentPackage mpB) :
    ∀ (l : List String) (g : DependencyGraph), mpA ∈ l → mpB ∈ l →
      pairMem (addSiblingEdges repo g l)
        (moduleId repo mpA) (moduleId repo mpB) ∧
      pairMem (addSiblingEdges repo g l)
        (moduleId repo mpB) (moduleId repo mpA) := by
  intro l
  induction l with
  | nil => intro g hA; cases hA
  | cons x rest ih =>
    intro g hA hB
    rw [show addSiblingEdges repo g (x :: rest) =
      addSiblingEdges repo (addSiblingEdgesFor repo x g rest) rest from rfl]
    by_cases hxA : x = mpA
    · subst hxA
      have hBrest : mpB ∈ rest := by
        rcases List.mem_cons.mp hB with h1 | h2
        · exact absurd h1.symm hne
        · exact h2
      have hcond : (parentPackage x != "" &&
          parentPackage x == parentPackage mpB) = true := by
        simp only [Bool.and_eq_true, bne_iff_ne, beq_iff_eq]
        exact ⟨hp1, hp2⟩
      have hcreate :=
        pairMem_addSiblingEdgesFor_create repo x mpB hcond rest g hBrest
      exact ⟨pairMem_addSiblingEdges _ _ _ hcreate.1,
        pairMem_addSiblingEdges _ _ _ hcreate.2⟩
    · by_cases hxB : x = mpB
      · subst hxB
        have hArest : mpA ∈ rest := by
          rcases List.mem_cons.mp hA with h1 | h2
          · exact absurd h1 (fun hh => hxA hh.symm)
          · exact h2
        have hcond : (parentPackage x != "" &&
            parentPackage x == parentPackage mpA) = true := by
          simp only [Bool.and_eq_true, bne_iff_ne, beq_iff_eq]
          exact ⟨hp2 ▸ hp1, hp2.symm⟩
        have hcreate :=
          pairMem_addSiblingEdgesFor_create repo x mpA hcond rest g hArest
        exact ⟨pairMem_addSiblingEdges _ _ _ hcreate.2,
          pairMem_addSiblingEdges _ _ _ hcreate.1⟩
      · have hArest : mpA ∈ rest := by
          rcases List.mem_cons.mp hA with h1 | h2
          · exact absurd h1.symm hxA
          · exact h2
        have hBrest : mpB ∈ rest := by
          rcases List.mem_cons.mp hB with h1 | h2
          · exact absurd h1.symm hxB
          · exact h2
        exact ih (addSiblingEdgesFor repo x g rest) hArest hBrest

theorem pairMem_processManifest_create (g : DependencyGraph)
    (m : RepositoryManifest) (mp1 mp2 : String)
    (h1 : mp1 ∈ manifestModulePaths m) (h2 : mp2 ∈ manifestModulePaths m)
    (hne : mp1 ≠ mp2) (hp1 : parentPackage mp1 ≠ "")
    (hp2 : parentPackage mp1 = parentPackage mp2) :
    pairMem (processManifest g m)
      (moduleId m.repo_name mp1) (moduleId m.repo_name mp2) ∧
    pairMem (processManifest g m)
      (moduleId m.repo_name mp2) (moduleId m.repo_name mp1) := by
  simp only [processManifest]
  exact pairMem_addSiblingEdges_create m.repo_name mp1 mp2 hne hp1 hp2 _ _
    ((processManifest_seen g m mp1).mpr h1)
    ((processManifest_seen g m mp2).mpr h2)

theorem build_pair_create (ms : List RepositoryManifest)
    (m : RepositoryManifest) (hm : m ∈ ms) (mp1 mp2 : String)
    (h1 : mp1 ∈ manifestModulePaths m) (h2 : mp2 ∈ manifestModulePaths m)
    (hne : mp1 ≠ mp2) (hp1 : parentPackage mp1 ≠ "")
    (hp2 : parentPackage mp1 = parentPackage mp2) :
    pairMem (build_from_manifests ms)
      (moduleId m.repo_name mp1) (moduleId m.repo_name mp2) ∧
    pairMem (build_from_manifests ms)
      (moduleId m.repo_name mp2) (moduleId m.repo_name mp1) := by
  have key : ∀ (ms' : List RepositoryManifest) (g : DependencyGraph),
      m ∈ ms' →
      pairMem (ms'.foldl processManifest g)
        (moduleId m.repo_name mp1) (moduleId m.repo_name mp2) ∧
      pairMem (ms'.foldl processManifest g)
        (moduleId m.repo_name mp2) (moduleId m.repo_name mp1) := by
    intro ms'
    induction ms' with
    | nil => intro g hmem; cases hmem
    | cons m0 ms' ih =>
      intro g hmem
      rw [List.foldl_cons]
      rcases List.mem_cons.mp hmem with rfl | h2
      · have hcreate :=
          pairMem_processManifest_create g m mp1 mp2 h1 h2 hne hp1 hp2
        exact ⟨pairMem_foldManifests ms' _ hcreate.1,
          pairMem_foldManifests ms' _ hcreate.2⟩
      · exact ih (processManifest g m0) h2
  exact key ms ⟨[], [], []⟩ hm

theorem mem_paths_of_fn {m : RepositoryManifest} {f : ManifestFunction}
    (hf : f ∈ m.functions) : f.module_path ∈ manifestModulePaths m :=
  List.mem_append.mpr (Or.inl (List.mem_map_of_mem _ hf))

theorem mem_paths_of_cls {m : RepositoryManifest} {c : ManifestClass}
    (hc : c ∈ m.classes) : c.module_path ∈ manifestModulePaths m :=
  List.mem_append.mpr (Or.inr (List.mem_map_of_mem _ hc))

theorem mem_functionIds {ms : List RepositoryManifest}
    {m : RepositoryManifest} {f : ManifestFunction}
    (hm : m ∈ ms) (hf : f ∈ m.functions) :
    functionId m.repo_name f ∈ functionIds ms := by
  simp only [functionIds, List.mem_flatMap]
  exact ⟨m, hm, List.mem_map_of_mem _ hf⟩

theorem mem_classIds {ms : List RepositoryManifest}
    {m : RepositoryManifest} {c : ManifestClass}
    (hm : m ∈ ms) (hc : c ∈ m.classes) :
    classId m.repo_name c ∈ classIds ms := by
  simp only [classIds, List.mem_flatMap]
  exact ⟨m, hm, List.mem_map_of_mem _ hc⟩

theorem mem_moduleIds {ms : List RepositoryManifest}
    {m : RepositoryManifest} {mp : String}
    (hm : m ∈ ms) (hmp : mp ∈ manifestModulePaths m) :
    moduleId m.repo_name mp ∈ moduleIds ms := by
  simp only [moduleIds, List.mem_flatMap]
  exact ⟨m, hm, List.mem_map_of_mem _ hmp⟩

-- ---------------------------------------------------------------------------
-- C9
-- ---------------------------------------------------------------------------

/-- C9: in every graph built by `build_from_manifests` over manifests whose
generated node ids are role-wise collision-free: (1) every edge into a
method node is a `method_of` edge from its owning class, never from a
module, and method nodes are never edge sources; (2) any two distinct
module paths seen in the same manifest with an identical non-empty parent
package are joined by `imports` edges in both directions; (3) both
endpoints of every edge are qualified by the same repository name, so no
edge connects two different repositories. -/
theorem c9_graph_builder_invariants (ms : List RepositoryManifest)
    (hdisj : RolesDisjoint ms) :
    (∀ u v t, (u, v, t) ∈ (build_from_manifests ms).edges →
      (v ∈ methodIds ms →
        t = "method_of" ∧
        (∃ m ∈ ms, ∃ c ∈ m.classes, ∃ mm ∈ c.methods,
          u = classId m.repo_name c ∧ v = methodId m.repo_name c mm) ∧
        u ∉ moduleIds ms) ∧
      u ∉ methodIds ms) ∧
    (∀ m ∈ ms, ∀ mp1 ∈ manifestModulePaths m, ∀ mp2 ∈ manifestModulePaths m,
      mp1 ≠ mp2 → parentPackage mp1 ≠ "" →
      parentPackage mp1 = parentPackage mp2 →
      (moduleId m.repo_name mp1, moduleId m.repo_name mp2, "imports") ∈
        (build_from_manifests ms).edges ∧
      (moduleId m.repo_name mp2, moduleId m.repo_name mp1, "imports") ∈
        (build_from_manifests ms).edges) ∧
    (∀ u v t, (u, v, t) ∈ (build_from_manifests ms).edges →
      ∃ r ∈ ms.map (·.repo_name),
        (∃ s1, u = qualify r s1) ∧ (∃ s2, v = qualify r s2)) := by
  refine ⟨?_, ?_, ?_⟩
  · intro u v t he
    obtain ⟨m, hm, hshape⟩ := build_edges_sound ms _ he
    constructor
    · intro hv
      rcases hshape with ⟨f, hf, heq⟩ | ⟨c, hc, heq⟩ |
        ⟨c, hc, mm, hmm, heq⟩ | ⟨mp1, hmp1, mp2, hmp2, heq⟩
      · simp only [Prod.mk.injEq] at heq
        obtain ⟨hu, hveq, ht⟩ := heq
        exact absurd (hveq ▸ mem_functionIds hm hf) (hdisj.1 v hv).1
      · simp only [Prod.mk.injEq] at heq
        obtain ⟨hu, hveq, ht⟩ := heq
        exact absurd (hveq ▸ mem_classIds hm hc) (hdisj.1 v hv).2.1
      · simp only [Prod.mk.injEq] at heq
        obtain ⟨hu, hveq, ht⟩ := heq
        refine ⟨ht, ⟨m, hm, c, hc, mm, hmm, hu, hveq⟩, ?_⟩
        intro humod
        exact absurd (hu ▸ mem_classIds hm hc) ((hdisj.2 u humod).2)
      · simp only [Prod.mk.injEq] at heq
        obtain ⟨hu, hveq, ht⟩ := heq
        exact absurd (hveq ▸ mem_moduleIds hm hmp2) (hdisj.1 v hv).2.2
    · intro hu
      rcases hshape with ⟨f, hf, heq⟩ | ⟨c, hc, heq⟩ |
        ⟨c, hc, mm, hmm, heq⟩ | ⟨mp1, hmp1, mp2, hmp2, heq⟩
      · simp only [Prod.mk.injEq] at heq
        obtain ⟨hueq, hv, ht⟩ := heq
        exact absurd (hueq ▸ mem_moduleIds hm (mem_paths_of_fn hf))
          (hdisj.1 u hu).2.2
      · simp only [Prod.mk.injEq] at heq
        obtain ⟨hueq, hv, ht⟩ := heq
        exact absurd (hueq ▸ mem_moduleIds hm (mem_paths_of_cls hc))
          (hdisj.1 u hu).2.2
      · simp only [Prod.mk.injEq] at heq
        obtain ⟨hueq, hv, ht⟩ := heq
        exact absurd (hueq ▸ mem_classIds hm hc) (hdisj.1 u hu).2.1
      · simp only [Prod.mk.injEq] at heq
        obtain ⟨hueq, hv, ht⟩ := heq
        exact absurd (hueq ▸ mem_moduleIds hm hmp1) (hdisj.1 u hu).2.2
  · intro m hm mp1 h1 mp2 h2 hne hp1 hp2
    obtain ⟨hpair12, hpair21⟩ :=
      build_pair_create ms m hm mp1 mp2 h1 h2 hne hp1 hp2
    have himp : ∀ mpA mpB, mpA ∈ manifestModulePaths m →
        mpB ∈ manifestModulePaths m →
        pairMem (build_from_manifests ms)
          (moduleId m.repo_name mpA) (moduleId m.repo_name mpB) →
        (moduleId m.repo_name mpA, moduleId m.repo_name mpB, "imports") ∈
          (build_from_manifests ms).edges := by
      intro mpA mpB hA hB hpair
      obtain ⟨t', ht'⟩ := hpair
      obtain ⟨m', hm', hshape⟩ := build_edges_sound ms _ ht'
      rcases hshape with ⟨f, hf, heq⟩ | ⟨c, hc, heq⟩ |
        ⟨c, hc, mm, hmm, heq⟩ | ⟨mpx, hmpx, mpy, hmpy, heq⟩
      · simp only [Prod.mk.injEq] at heq
        obtain ⟨hu, hv, ht⟩ := heq
        exact absurd (hv ▸ mem_functionIds hm' hf)
          ((hdisj.2 _ (mem_moduleIds hm hB)).1)
      · simp only [Prod.mk.injEq] at heq
        obtain ⟨hu, hv, ht⟩ := heq
        exact absurd (hv ▸ mem_classIds hm' hc)
          ((hdisj.2 _ (mem_moduleIds hm hB)).2)
      · simp only [Prod.mk.injEq] at heq
        obtain ⟨hu, hv, ht⟩ := heq
        exact absurd (hu ▸ mem_classIds hm' hc)
          ((hdisj.2 _ (mem_moduleIds hm hA)).2)
      · simp only [Prod.mk.injEq] at heq
        obtain ⟨hu, hv, ht⟩ := heq
        rw [← ht]
        exact ht'
    exact ⟨himp mp1 mp2 h1 h2 hpair12, himp mp2 mp1 h2 h1 hpair21⟩
  · intro u v t he
    obtain ⟨m, hm, hshape⟩ := build_edges_sound ms _ he
    rcases hshape with ⟨f, hf, heq⟩ | ⟨c, hc, heq⟩ |
      ⟨c, hc, mm, hmm, heq⟩ | ⟨mp1, hmp1, mp2, hmp2, heq⟩ <;>
      simp only [Prod.mk.injEq] at heq
    · exact ⟨m.repo_name, List.mem_map_of_mem _ hm,
        ⟨f.module_path, heq.1⟩, ⟨f.module_path ++ "." ++ f.name, heq.2.1⟩⟩
    · exact ⟨m.repo_name, List.mem_map_of_mem _ hm,
        ⟨c.module_path, heq.1⟩, ⟨c.module_path ++ "." ++ c.name, heq.2.1⟩⟩
    · exact ⟨m.repo_name, List.mem_map_of_mem _ hm,
        ⟨c.module_path ++ "." ++ c.name, heq.1⟩,
        ⟨c.module_path ++ "." ++ c.name ++ "." ++ mm.name, heq.2.1⟩⟩
    · exact ⟨m.repo_name, List.mem_map_of_mem _ hm,
        ⟨mp1, heq.1⟩, ⟨mp2, heq.2.1⟩⟩

def mC9m : RepositoryManifest :=
  ⟨"r", "1.0", [⟨"fa", "pkg.a", none, ""⟩, ⟨"fb", "pkg.b", none, ""⟩],
   [⟨"C", "pkg.a", [⟨"m", "pkg.a", none, ""⟩], none, ""⟩]⟩

def msC9 : List RepositoryManifest := [mC9m]

/-- C9 (witness): the invariants theorem applied to a concrete manifest
list: the sibling modules pkg.a and pkg.b are joined by imports edges in
both directions. -/
theorem c9_graph_builder_invariants_witness :
    RolesDisjoint msC9 ∧
    (moduleId mC9m.repo_name "pkg.a", moduleId mC9m.repo_name "pkg.b",
      "imports") ∈ (build_from_manifests msC9).edges ∧
    (moduleId mC9m.repo_name "pkg.b", moduleId mC9m.repo_name "pkg.a",
      "imports") ∈ (build_from_manifests msC9).edges :=
  ⟨by decide,
   ((c9_graph_builder_invariants msC9 (by decide)).2.1 mC9m (by decide)
     "pkg.a" (by decide) "pkg.b" (by decide) (by decide) (by decide)
     (by decide)).1,
   ((c9_graph_builder_invariants msC9 (by decide)).2.1 mC9m (by decide)
     "pkg.a" (by decide) "pkg.b" (by decide) (by decide) (by decide)
     (by decide)).2⟩
